import Mathlib

/-!
Verification of the branch-pair resolution and merge-request reconciliation
engine of the husgit CLI.  The definitions below are a shallow embedding of
the TypeScript source: `resolveBranchPairs` / `executeMergeRequests`
(src/mergeRequests.ts), the `GitlabClient` merge-request methods
(src/gitlab/client.ts), the environment helpers (src/config/manager.ts),
and the status command's `buildEnvPairs` / scan loop (src/commands/status.ts).
Network calls are modelled by an explicit `Wire` interface threaded through a
state type, and thrown JS `Error`s by `Except String` carrying the message.
-/

namespace Husgit

/-- Environment record (types.ts): a named stage with an `order` position.
JS numbers used for `order` are modelled as `Int` (the code computes
`order + 1` and `order - 1`). -/
structure Environment where
  name : String
  order : Int
deriving Repr, DecidableEq

/-- Project record (types.ts).  `branchMap : Record<string, string>` is
modelled as an association list; lookup takes the first matching key. -/
structure ProjectConfig where
  externalId : String
  name : String
  fullPath : String
  branchMap : List (String × String)
deriving Repr, DecidableEq

/-- The direction union type `'release' | 'backport'` (types.ts). -/
inductive Direction
  | release
  | backport
deriving Repr, DecidableEq

/-- The string literal of a `Direction` value as it appears in the source. -/
def Direction.toStr : Direction → String
  | .release => "release"
  | .backport => "backport"

/-- BranchPair (types.ts): ephemeral resolver output. -/
structure BranchPair where
  project : ProjectConfig
  sourceBranch : String
  targetBranch : String
deriving Repr, DecidableEq

/-- The status union of `MergeRequestResult` (types.ts). -/
inductive MrStatus
  | created
  | updated
  | failed
deriving Repr, DecidableEq

/-- MergeRequestResult (types.ts): per-pair outcome of the reconciler. -/
structure MergeRequestResult where
  project : ProjectConfig
  sourceBranch : String
  targetBranch : String
  status : MrStatus
  mrUrl : Option String
  error : Option String
deriving Repr, DecidableEq

/-- `Record` lookup `branchMap[envName]` (returns `undefined` when absent;
for a JS object modelled as an association list the first binding wins). -/
def lookupBranch (branchMap : List (String × String)) (envName : String) :
    Option String :=
  (branchMap.find? (fun kv => kv.fst == envName)).map Prod.snd

/-- JS truthiness of a `string | undefined` value: `undefined` and `""` are
falsy.  `truthyStr o = some s` exactly when the value is a non-empty string. -/
def truthyStr : Option String → Option String
  | none => none
  | some s => if s == "" then none else some s

/-- `getEnvironmentByName` (config/manager.ts): first environment whose
name matches. -/
def getEnvironmentByName (environments : List Environment) (name : String) :
    Option Environment :=
  environments.find? (fun e => e.name == name)

/-- `getNextEnvironment` (config/manager.ts): the environment whose order is
`source.order + 1`. -/
def getNextEnvironment (environments : List Environment) (envName : String) :
    Option Environment :=
  match getEnvironmentByName environments envName with
  | none => none
  | some env => environments.find? (fun e => e.order == env.order + 1)

/-- `getPreviousEnvironment` (config/manager.ts): the environment whose order
is `source.order - 1`. -/
def getPreviousEnvironment (environments : List Environment) (envName : String) :
    Option Environment :=
  match getEnvironmentByName environments envName with
  | none => none
  | some env => environments.find? (fun e => e.order == env.order - 1)

/-- The three `throw new Error(...)` sites of `resolveBranchPairs`
(mergeRequests.ts), as a tagged type carrying the data interpolated into the
message strings; `ResolveError.message` renders the exact source strings. -/
inductive ResolveError
  | environmentNotFound (envName : String)
  | noAdjacentEnvironment (direction : Direction) (sourceEnvName : String)
  | missingBranchMapping (projectName sourceEnvName targetEnvName : String)
deriving Repr, DecidableEq

/-- The exact `Error` message strings thrown by `resolveBranchPairs`. -/
def ResolveError.message : ResolveError → String
  | .environmentNotFound n => "Environment \"" ++ n ++ "\" not found"
  | .noAdjacentEnvironment d n =>
      "No " ++ (match d with | .release => "next" | .backport => "previous") ++
        " environment after \"" ++ n ++ "\". Cannot " ++ d.toStr ++ "."
  | .missingBranchMapping p s t =>
      "Project \"" ++ p ++ "\" is missing branch mapping for \"" ++ s ++
        "\" or \"" ++ t ++ "\""

/-- The per-project loop of `resolveBranchPairs` (mergeRequests.ts):
look up both branches in the project's `branchMap`; a missing or empty
(`!sourceBranch || !targetBranch`) entry throws, aborting the whole batch. -/
def resolveBranchPairsAux (sourceEnvName targetEnvName : String) :
    List ProjectConfig → Except ResolveError (List BranchPair)
  | [] => Except.ok []
  | project :: rest =>
    match truthyStr (lookupBranch project.branchMap sourceEnvName),
          truthyStr (lookupBranch project.branchMap targetEnvName) with
    | some sourceBranch, some targetBranch =>
      match resolveBranchPairsAux sourceEnvName targetEnvName rest with
      | Except.ok pairs =>
          Except.ok (⟨project, sourceBranch, targetBranch⟩ :: pairs)
      | Except.error e => Except.error e
    | _, _ =>
      Except.error
        (.missingBranchMapping project.name sourceEnvName targetEnvName)

/-- `resolveBranchPairs` (mergeRequests.ts).  The config argument is its
`environments` list (the only config field the function reads). -/
def resolveBranchPairs (environments : List Environment)
    (sourceEnvName : String) (direction : Direction)
    (projects : List ProjectConfig) : Except ResolveError (List BranchPair) :=
  match getEnvironmentByName environments sourceEnvName with
  | none => Except.error (.environmentNotFound sourceEnvName)
  | some _ =>
    match (match direction with
           | .release => getNextEnvironment environments sourceEnvName
           | .backport => getPreviousEnvironment environments sourceEnvName) with
    | none => Except.error (.noAdjacentEnvironment direction sourceEnvName)
    | some targetEnv => resolveBranchPairsAux sourceEnvName targetEnv.name projects

/-- The `{mrId, mrUrl}` value returned by the client's create/update
methods (gitlab/client.ts). -/
structure MrRef where
  mrId : String
  mrUrl : String
deriving Repr, DecidableEq

/-- A merge-request node of the GraphQL query result
`getProjectOpenedMergeRequestBySourceAndTarget` (gitlab/queries.ts):
`{ id, iid, webUrl, state }`.  A `null` `webUrl` is modelled as `""`
(both are falsy in the `webUrl || fallback` expression). -/
structure MrNode where
  id : String
  iid : String
  webUrl : String
  state : String
deriving Repr, DecidableEq

/-- Response of the REST `POST /projects/:id/merge_requests` call: either the
created MR's `{iid, web_url}`, or an error with an HTTP status and the
message the thrown `Error` carries. -/
inductive HttpResp
  | ok (iid : String) (webUrl : String)
  | errStatus (status : Nat) (message : String)
deriving Repr, DecidableEq

/-- The transport operations `GitlabClient` consumes, threaded through an
explicit server-state type `σ`: the REST MR creation post, the GraphQL
open-MR query, and the GraphQL title-update mutation
(`updateProjectMergeRequest` in gitlab/queries.ts takes exactly
`fullPath`, `iid`, `title` — no description variable exists). The mutation
returns `some message` when it reports an error. -/
structure Wire (σ : Type) where
  postCreateMergeRequest :
    σ → String → String → String → String → Option String → HttpResp × σ
  queryOpenMergeRequests : σ → String → String → String → List MrNode × σ
  mutateUpdateMergeRequestTitle :
    σ → String → String → String → Option String × σ

/-- `GitlabClient` (gitlab/client.ts): a transport plus the base
`gitlabUrl` used for the fallback MR URL. -/
structure GitlabClient (σ : Type) where
  wire : Wire σ
  gitlabUrl : String

/-- `GitlabClient.createMergeRequest` (gitlab/client.ts): posts the creation;
an HTTP 409 is rethrown as `Error('MR_ALREADY_EXISTS')`, any other error is
rethrown unchanged. -/
def GitlabClient.createMergeRequest {σ : Type} (c : GitlabClient σ) (s : σ)
    (projectExternalId title sourceBranch targetBranch : String)
    (description : Option String) : Except String MrRef × σ :=
  match c.wire.postCreateMergeRequest s projectExternalId title sourceBranch
      targetBranch description with
  | (HttpResp.ok iid webUrl, s1) => (Except.ok ⟨iid, webUrl⟩, s1)
  | (HttpResp.errStatus status message, s1) =>
    if status == 409 then (Except.error "MR_ALREADY_EXISTS", s1)
    else (Except.error message, s1)

/-- `id.includes('MergeRequest/') ? id.split('MergeRequest/')[1] : id`
(gitlab/client.ts). -/
def extractExternalMrId (id : String) : String :=
  match id.splitOn "MergeRequest/" with
  | _ :: second :: _ => second
  | _ => id

/-- `GitlabClient.updateMergeRequest` (gitlab/client.ts): query the open MR
between exactly (sourceBranch, targetBranch) on the project; throw
`NO_MR_FOUND` when there is none; otherwise mutate the first node's title
(the mutation carries no description) and return its id and URL (with a
constructed fallback URL when `webUrl` is falsy).  The `description`
parameter is accepted but never used, exactly as in the source. -/
def GitlabClient.updateMergeRequest {σ : Type} (c : GitlabClient σ) (s : σ)
    (sourceBranch targetBranch projectFullPath title : String)
    (description : Option String) : Except String MrRef × σ :=
  match c.wire.queryOpenMergeRequests s projectFullPath sourceBranch
      targetBranch with
  | (edges, s1) =>
    match edges with
    | [] => (Except.error "NO_MR_FOUND", s1)
    | node :: _ =>
      match c.wire.mutateUpdateMergeRequestTitle s1 projectFullPath node.iid
          title with
      | (some errMessage, s2) =>
          (Except.error ("Failed to update MR: " ++ errMessage), s2)
      | (none, s2) =>
          (Except.ok ⟨extractExternalMrId node.id,
            if node.webUrl == "" then
              c.gitlabUrl ++ "/" ++ projectFullPath ++ "/-/merge_requests/" ++
                node.iid
            else node.webUrl⟩, s2)

/-- The body of the per-pair loop of `executeMergeRequests`
(mergeRequests.ts): try create; on the `MR_ALREADY_EXISTS` message take the
update path; any other creation error, or an update error, becomes a
`failed` outcome for this pair. -/
def executeMergeRequestStep {σ : Type} (c : GitlabClient σ) (s : σ)
    (pair : BranchPair) (title : String) (description : Option String) :
    MergeRequestResult × σ :=
  match c.createMergeRequest s pair.project.externalId title pair.sourceBranch
      pair.targetBranch description with
  | (Except.ok r, s1) =>
      (⟨pair.project, pair.sourceBranch, pair.targetBranch, MrStatus.created,
        some r.mrUrl, none⟩, s1)
  | (Except.error message, s1) =>
    if message == "MR_ALREADY_EXISTS" then
      match c.updateMergeRequest s1 pair.sourceBranch pair.targetBranch
          pair.project.fullPath title description with
      | (Except.ok r, s2) =>
          (⟨pair.project, pair.sourceBranch, pair.targetBranch,
            MrStatus.updated, some r.mrUrl, none⟩, s2)
      | (Except.error updateMessage, s2) =>
          (⟨pair.project, pair.sourceBranch, pair.targetBranch,
            MrStatus.failed, none, some updateMessage⟩, s2)
    else
      (⟨pair.project, pair.sourceBranch, pair.targetBranch, MrStatus.failed,
        none, some message⟩, s1)

/-- `executeMergeRequests` (mergeRequests.ts): sequential fold of the
per-pair step over the input pairs, accumulating one outcome per pair. -/
def executeMergeRequests {σ : Type} (c : GitlabClient σ) (s : σ)
    (pairs : List BranchPair) (title : String)
    (description : Option String) : List MergeRequestResult × σ :=
  match pairs with
  | [] => ([], s)
  | pair :: rest =>
    match executeMergeRequestStep c s pair title description with
    | (result, s1) =>
      match executeMergeRequests c s1 rest title description with
      | (results, s2) => (result :: results, s2)

/-! ### A model source-control host satisfying the §6 contract

The host is an external collaborator; the spec fixes its contract: the
creation post answers HTTP 409 exactly when an open MR for that exact
branch pair already exists on the project, the open-MR query returns the
open MRs between the given branches, and the title mutation updates only
the title.  `serverWire` realises that contract as a deterministic state
machine, with `pathOf` the host's registry mapping a project id to its
full path. -/

/-- An open merge request held by the model host. -/
structure ServerMergeRequest where
  projectExternalId : String
  sourceBranch : String
  targetBranch : String
  title : String
  iid : Nat
deriving Repr, DecidableEq

/-- State of the model host. -/
structure ServerState where
  pathOf : String → String
  mrs : List ServerMergeRequest
  nextIid : Nat

/-- Whether a hosted MR is the open MR of the given (project id, source
branch, target branch) key. -/
def mrMatchesKey (m : ServerMergeRequest)
    (projectExternalId sourceBranch targetBranch : String) : Bool :=
  m.projectExternalId == projectExternalId &&
    m.sourceBranch == sourceBranch && m.targetBranch == targetBranch

/-- Number of open MRs the model host holds for a key. -/
def mrKeyCount (s : ServerState)
    (projectExternalId sourceBranch targetBranch : String) : Nat :=
  (s.mrs.filter
      (fun m => mrMatchesKey m projectExternalId sourceBranch targetBranch)).length

/-- Whether the model host holds an open MR for a key. -/
def hasMrKey (s : ServerState)
    (projectExternalId sourceBranch targetBranch : String) : Bool :=
  s.mrs.any (fun m => mrMatchesKey m projectExternalId sourceBranch targetBranch)

/-- The GraphQL node the model host answers for a hosted MR. -/
def ServerMergeRequest.toNode (m : ServerMergeRequest) (fullPath : String) :
    MrNode :=
  ⟨"gid://gitlab/MergeRequest/" ++ toString m.iid, toString m.iid,
    "https://host/" ++ fullPath ++ "/-/merge_requests/" ++ toString m.iid,
    "opened"⟩

/-- The model host's transport: create answers 409 exactly when an open MR
for the key exists, otherwise records the MR; the query returns the open
MRs of the project (located through `pathOf`) between the given branches;
the mutation rewrites only the title of the matching MR and succeeds. -/
def serverWire : Wire ServerState where
  postCreateMergeRequest := fun s pid title src tgt _desc =>
    if hasMrKey s pid src tgt then
      (HttpResp.errStatus 409 "409 Conflict", s)
    else
      (HttpResp.ok (toString s.nextIid)
        ("https://host/" ++ s.pathOf pid ++ "/-/merge_requests/" ++
          toString s.nextIid),
       { s with mrs := ⟨pid, src, tgt, title, s.nextIid⟩ :: s.mrs,
                nextIid := s.nextIid + 1 })
  queryOpenMergeRequests := fun s fullPath src tgt =>
    ((s.mrs.filter (fun m =>
        s.pathOf m.projectExternalId == fullPath &&
          m.sourceBranch == src && m.targetBranch == tgt)).map
      (fun m => m.toNode fullPath), s)
  mutateUpdateMergeRequestTitle := fun s fullPath iid title =>
    (none, { s with mrs := s.mrs.map (fun m =>
      if s.pathOf m.projectExternalId == fullPath && toString m.iid == iid then
        { m with title := title }
      else m) })

/-- A `GitlabClient` talking to the model host. -/
def serverClient (gitlabUrl : String) : GitlabClient ServerState :=
  ⟨serverWire, gitlabUrl⟩

/-! ### A call-logging transport

For claims about which network calls the reconciler issues, the transport
state is the list of calls made so far, and an oracle chooses every
response as an arbitrary function of the call history — any deterministic
server is an instance. -/

/-- One transport call, with the arguments the embedding hands to the wire. -/
inductive WireCall
  | create (projectId title sourceBranch targetBranch : String)
      (description : Option String)
  | query (fullPath sourceBranch targetBranch : String)
  | update (fullPath iid title : String)
deriving Repr, DecidableEq

/-- Responses of an arbitrary deterministic server, as functions of the
call history and the call arguments. -/
structure WireOracle where
  onCreate :
    List WireCall → String → String → String → String → Option String →
      HttpResp
  onQuery : List WireCall → String → String → String → List MrNode
  onUpdate : List WireCall → String → String → String → Option String

/-- The transport that answers from an oracle and logs every call. -/
def oracleWire (o : WireOracle) : Wire (List WireCall) where
  postCreateMergeRequest := fun s pid title src tgt desc =>
    (o.onCreate s pid title src tgt desc, s ++ [.create pid title src tgt desc])
  queryOpenMergeRequests := fun s fp src tgt =>
    (o.onQuery s fp src tgt, s ++ [.query fp src tgt])
  mutateUpdateMergeRequestTitle := fun s fp iid title =>
    (o.onUpdate s fp iid title, s ++ [.update fp iid title])

/-- A `GitlabClient` over the logging transport. -/
def oracleClient (o : WireOracle) (gitlabUrl : String) :
    GitlabClient (List WireCall) :=
  ⟨oracleWire o, gitlabUrl⟩

/-! ### Status command (commands/status.ts) -/

/-- An environment pair of the status command (`EnvPair` in
commands/status.ts). -/
structure EnvPair where
  sourceEnv : Environment
  targetEnv : Environment
  direction : Direction
deriving Repr, DecidableEq

/-- JS falsiness of the optional string filters (`!type`,
`if (sourceEnvName)`): absent or empty means no filter. -/
def strFalsy : Option String → Bool
  | none => true
  | some s => s == ""

/-- Sort `[...environments].sort((a, b) => a.order - b.order)`: a stable
sort by the `order` field. -/
def sortByOrder (environments : List Environment) : List Environment :=
  environments.mergeSort (fun a b => a.order ≤ b.order)

/-- Adjacent pairs `(l[i], l[i+1])` for ascending `i`, the shape of both
indexed loops of `buildEnvPairs`. -/
def adjacentPairs : List Environment → List (Environment × Environment)
  | a :: b :: rest => (a, b) :: adjacentPairs (b :: rest)
  | _ => []

/-- `buildEnvPairs` (commands/status.ts): release pairs ascending over the
sorted chain, then backport pairs descending from its top (the descending
indexed loop is the ascending adjacency of the reversed chain), then the
optional source-environment-name post-filter. -/
def buildEnvPairs (environments : List Environment) (type : Option String)
    (sourceEnvName : Option String) : List EnvPair :=
  let sorted := sortByOrder environments
  let releasePairs :=
    if strFalsy type || type == some "release" then
      (adjacentPairs sorted).map
        (fun ab => EnvPair.mk ab.fst ab.snd Direction.release)
    else []
  let backportPairs :=
    if strFalsy type || type == some "backport" then
      (adjacentPairs sorted.reverse).map
        (fun ab => EnvPair.mk ab.fst ab.snd Direction.backport)
    else []
  let pairs := releasePairs ++ backportPairs
  match sourceEnvName with
  | some n => if n == "" then pairs else pairs.filter (fun p => p.sourceEnv.name == n)
  | none => pairs

/-- A row of the status table (`OpenMergeRequest` in types.ts), with the
fields `runStatus` fills in. -/
structure OpenMergeRequest where
  project : ProjectConfig
  groups : List String
  sourceEnv : String
  targetEnv : String
  sourceBranch : String
  targetBranch : String
  direction : Direction
  mrId : String
  mrUrl : String
  state : String
deriving Repr, DecidableEq

/-- The rows one successful `getOpenMergeRequests` answer contributes for a
(project, pair) combination in `runStatus`. -/
def statusRecordsFor (project : ProjectConfig) (groupsOf : String → List String)
    (pair : EnvPair) (sourceBranch targetBranch : String)
    (mrs : List MrNode) : List OpenMergeRequest :=
  mrs.map (fun mr =>
    ⟨project, groupsOf project.fullPath, pair.sourceEnv.name,
      pair.targetEnv.name, sourceBranch, targetBranch, pair.direction,
      mr.iid, mr.webUrl, mr.state⟩)

/-- The scan loop of `runStatus` (commands/status.ts): for every project and
every environment pair, skip the combination when either branch mapping is
missing or empty; otherwise query the client (`Except.error` models a
thrown query error, which only warns) and append the returned rows.
`groupsOf` is the `projectGroupsMap` reverse lookup with `[]` default. -/
def statusScan (query : String → String → String → Except String (List MrNode))
    (groupsOf : String → List String) (projectsToQuery : List ProjectConfig)
    (envPairs : List EnvPair) : List OpenMergeRequest :=
  projectsToQuery.foldl (fun acc project =>
    envPairs.foldl (fun acc2 pair =>
      match truthyStr (lookupBranch project.branchMap pair.sourceEnv.name),
            truthyStr (lookupBranch project.branchMap pair.targetEnv.name) with
      | some sourceBranch, some targetBranch =>
        match query project.fullPath sourceBranch targetBranch with
        | Except.ok mrs =>
            acc2 ++ statusRecordsFor project groupsOf pair sourceBranch
              targetBranch mrs
        | Except.error _ => acc2
      | _, _ => acc2) acc) []

/-- The contribution of one (project, pair) combination of the scan:
empty when a branch mapping is missing or empty, and empty when the query
fails. -/
def statusCombo (query : String → String → String → Except String (List MrNode))
    (groupsOf : String → List String) (project : ProjectConfig)
    (pair : EnvPair) : List OpenMergeRequest :=
  match truthyStr (lookupBranch project.branchMap pair.sourceEnv.name),
        truthyStr (lookupBranch project.branchMap pair.targetEnv.name) with
  | some sourceBranch, some targetBranch =>
    match query project.fullPath sourceBranch targetBranch with
    | Except.ok mrs =>
        statusRecordsFor project groupsOf pair sourceBranch targetBranch mrs
    | Except.error _ => []
  | _, _ => []

/-- A well-formed environment chain, as `validateConfig`
(config/manager.ts) enforces: every `order` lies in `0..N-1`, every
position `0..N-1` is taken, and names are unique. -/
def ValidChain (envs : List Environment) : Prop :=
  (∀ e ∈ envs, 0 ≤ e.order ∧ e.order < (envs.length : Int)) ∧
  (∀ k ∈ List.range envs.length, ∃ e ∈ envs, e.order = (k : Int)) ∧
  (envs.map (fun e => e.name)).Nodup

/-! ### Concrete fixtures used by the witness theorems -/

/-- The §8 scenario chain dev → staging → prod. -/
def chainW : List Environment := [⟨"dev", 0⟩, ⟨"staging", 1⟩, ⟨"prod", 2⟩]

/-- The §8 scenario project P with a complete branch map. -/
def projP : ProjectConfig :=
  ⟨"42", "P", "grp/p",
    [("dev", "develop"), ("staging", "release/staging"),
     ("prod", "release/prod")]⟩

/-- The §8 scenario project Q with no `prod` entry. -/
def projQ : ProjectConfig :=
  ⟨"43", "Q", "grp/q", [("dev", "develop"), ("staging", "release/staging")]⟩

/-- The branch pair the §8 scenario resolves for P at staging → prod. -/
def pairW : BranchPair := ⟨projP, "release/staging", "release/prod"⟩

/-- A model host that has project 42 at `grp/p` and no open MRs. -/
def serverW : ServerState := ⟨fun pid => if pid == "42" then "grp/p" else "x", [], 0⟩

/-- An oracle whose creation post always answers 409 and whose open-MR
query always answers the empty list. -/
def oracleConflictNone : WireOracle :=
  ⟨fun _ _ _ _ _ _ => HttpResp.errStatus 409 "409 Conflict",
   fun _ _ _ _ => [], fun _ _ _ _ => none⟩

/-- A fixed open-MR node used by oracle fixtures. -/
def nodeW : MrNode :=
  ⟨"gid://gitlab/MergeRequest/7", "7", "https://host/grp/p/-/merge_requests/7",
    "opened"⟩

/-- An oracle that answers 409 on create, one open MR on query, and success
on the title mutation. -/
def oracleConflictFound : WireOracle :=
  ⟨fun _ _ _ _ _ _ => HttpResp.errStatus 409 "409 Conflict",
   fun _ _ _ _ => [nodeW], fun _ _ _ _ => none⟩

/-- An oracle that answers 409 on create, one open MR on query, and an
error on the title mutation. -/
def oracleUpdateFails : WireOracle :=
  ⟨fun _ _ _ _ _ _ => HttpResp.errStatus 409 "409 Conflict",
   fun _ _ _ _ => [nodeW], fun _ _ _ _ => some "boom"⟩

/-- An oracle whose creation post fails with HTTP 500. -/
def oracleServerError : WireOracle :=
  ⟨fun _ _ _ _ _ _ => HttpResp.errStatus 500 "Request failed with status code 500",
   fun _ _ _ _ => [nodeW], fun _ _ _ _ => none⟩

/-! ## Theorems -/

theorem executeMergeRequests_nil {σ : Type} (c : GitlabClient σ) (s : σ)
    (title : String) (description : Option String) :
    executeMergeRequests c s [] title description = ([], s) := rfl

theorem executeMergeRequests_cons {σ : Type} (c : GitlabClient σ) (s : σ)
    (pair : BranchPair) (rest : List BranchPair) (title : String)
    (description : Option String) :
    executeMergeRequests c s (pair :: rest) title description =
      ((executeMergeRequestStep c s pair title description).1 ::
        (executeMergeRequests c
          (executeMergeRequestStep c s pair title description).2 rest title
          description).1,
       (executeMergeRequests c
          (executeMergeRequestStep c s pair title description).2 rest title
          description).2) := rfl

/-- Whatever the client answers, the per-pair step reports the pair's own
project and branches in its outcome. -/
theorem executeMergeRequestStep_fields {σ : Type} (c : GitlabClient σ)
    (s : σ) (pair : BranchPair) (title : String)
    (description : Option String) :
    ((executeMergeRequestStep c s pair title description).1).project =
        pair.project ∧
      ((executeMergeRequestStep c s pair title description).1).sourceBranch =
        pair.sourceBranch ∧
      ((executeMergeRequestStep c s pair title description).1).targetBranch =
        pair.targetBranch := by
  unfold executeMergeRequestStep
  rcases h : c.createMergeRequest s pair.project.externalId title
      pair.sourceBranch pair.targetBranch description with ⟨res, s1⟩
  cases res with
  | ok r => simp
  | error message =>
    by_cases hm : message == "MR_ALREADY_EXISTS"
    · simp only [hm, if_true]
      rcases hu : c.updateMergeRequest s1 pair.sourceBranch pair.targetBranch
          pair.project.fullPath title description with ⟨ures, s2⟩
      cases ures <;> simp
    · simp [hm]

/-- `executeMergeRequests` returns one outcome per pair, and the outcome at
index `i` carries the project and branches of the pair at index `i`. -/
theorem executeMergeRequests_align {σ : Type} (c : GitlabClient σ) (s : σ)
    (pairs : List BranchPair) (title : String) (description : Option String) :
    ((executeMergeRequests c s pairs title description).1).length =
        pairs.length ∧
      ∀ (i : Nat) (pair : BranchPair), pairs[i]? = some pair →
        ∃ r, ((executeMergeRequests c s pairs title description).1)[i]? =
            some r ∧
          r.project = pair.project ∧ r.sourceBranch = pair.sourceBranch ∧
          r.targetBranch = pair.targetBranch := by
  induction pairs generalizing s with
  | nil => simp [executeMergeRequests_nil]
  | cons pair rest ih =>
    rw [executeMergeRequests_cons]
    refine ⟨by simpa using (ih (executeMergeRequestStep c s pair title description).2).1, ?_⟩
    intro i q hq
    cases i with
    | zero =>
      simp only [List.getElem?_cons_zero, Option.some.injEq] at hq
      subst hq
      exact ⟨_, by simp, executeMergeRequestStep_fields c s pair title description⟩
    | succ j =>
      simp only [List.getElem?_cons_succ] at hq ⊢
      exact (ih (executeMergeRequestStep c s pair title description).2).2 j q hq

/-- C3.  Outcome cardinality and alignment: for every client, server state,
list of `N` branch pairs, title and optional description,
`executeMergeRequests` returns exactly `N` outcomes, and the outcome at
index `i` refers to the pair at index `i` (same project, sourceBranch and
targetBranch); no pair is dropped and per-pair failures cannot shorten the
result. -/
theorem c3_outcome_cardinality_alignment {σ : Type} (c : GitlabClient σ)
    (s : σ) (pairs : List BranchPair) (title : String)
    (description : Option String) :
    ((executeMergeRequests c s pairs title description).1).length =
        pairs.length ∧
      ∀ (i : Nat) (pair : BranchPair), pairs[i]? = some pair →
        ∃ r, ((executeMergeRequests c s pairs title description).1)[i]? =
            some r ∧
          r.project = pair.project ∧ r.sourceBranch = pair.sourceBranch ∧
          r.targetBranch = pair.targetBranch :=
  executeMergeRequests_align c s pairs title description

/-- Witness for C3 at a concrete client and pair list. -/
theorem c3_witness :
    ([pairW][0]? = some pairW) ∧
      ∃ r, ((executeMergeRequests (serverClient "https://gitlab.com") serverW
          [pairW] "wave" none).1)[0]? = some r ∧
        r.project = pairW.project ∧ r.sourceBranch = pairW.sourceBranch ∧
        r.targetBranch = pairW.targetBranch :=
  ⟨rfl, (c3_outcome_cardinality_alignment (serverClient "https://gitlab.com")
    serverW [pairW] "wave" none).2 0 pairW rfl⟩

/-- When every project has truthy entries for both environments, the
resolver loop returns one pair per project in input order, built from the
branchMap entries. -/
theorem resolveBranchPairsAux_complete (sourceEnvName targetEnvName : String)
    (ps : List ProjectConfig)
    (h : ∀ p ∈ ps,
      (truthyStr (lookupBranch p.branchMap sourceEnvName)).isSome ∧
        (truthyStr (lookupBranch p.branchMap targetEnvName)).isSome) :
    resolveBranchPairsAux sourceEnvName targetEnvName ps =
      Except.ok (ps.map (fun p =>
        ⟨p, (truthyStr (lookupBranch p.branchMap sourceEnvName)).getD "",
          (truthyStr (lookupBranch p.branchMap targetEnvName)).getD ""⟩)) := by
  induction ps with
  | nil => rfl
  | cons p rest ih =>
    obtain ⟨hs, ht⟩ := h p (List.mem_cons_self p rest)
    rcases Option.isSome_iff_exists.mp hs with ⟨sb, hsb⟩
    rcases Option.isSome_iff_exists.mp ht with ⟨tb, htb⟩
    have hrest := ih (fun q hq => h q (List.mem_cons_of_mem p hq))
    simp only [resolveBranchPairsAux, hsb, htb, hrest, List.map_cons,
      Option.getD_some]

/-- If some project of the batch misses a truthy entry for either
environment, the resolver loop fails with `missingBranchMapping` naming a
project that indeed misses one. -/
theorem resolveBranchPairsAux_missing (sourceEnvName targetEnvName : String)
    (ps : List ProjectConfig)
    (h : ∃ p ∈ ps,
      truthyStr (lookupBranch p.branchMap sourceEnvName) = none ∨
        truthyStr (lookupBranch p.branchMap targetEnvName) = none) :
    ∃ q ∈ ps,
      (truthyStr (lookupBranch q.branchMap sourceEnvName) = none ∨
        truthyStr (lookupBranch q.branchMap targetEnvName) = none) ∧
      resolveBranchPairsAux sourceEnvName targetEnvName ps =
        Except.error
          (.missingBranchMapping q.name sourceEnvName targetEnvName) := by
  induction ps with
  | nil => simp at h
  | cons p rest ih =>
    by_cases hp : truthyStr (lookupBranch p.branchMap sourceEnvName) = none ∨
        truthyStr (lookupBranch p.branchMap targetEnvName) = none
    · refine ⟨p, List.mem_cons_self p rest, hp, ?_⟩
      rcases hp with hp | hp
      · simp only [resolveBranchPairsAux, hp]
      · cases hsv : truthyStr (lookupBranch p.branchMap sourceEnvName) with
        | none => simp only [resolveBranchPairsAux, hsv]
        | some sb => simp only [resolveBranchPairsAux, hsv, hp]
    · push_neg at hp
      obtain ⟨hps, hpt⟩ := hp
      rcases Option.ne_none_iff_exists.mp hps with ⟨sb, hsb⟩
      rcases Option.ne_none_iff_exists.mp hpt with ⟨tb, htb⟩
      have hrest : ∃ q ∈ rest,
          truthyStr (lookupBranch q.branchMap sourceEnvName) = none ∨
            truthyStr (lookupBranch q.branchMap targetEnvName) = none := by
        rcases h with ⟨q, hq, hmiss⟩
        rcases List.mem_cons.mp hq with rfl | hq2
        · rcases hmiss with hc | hc
          · rw [hc] at hsb; simp at hsb
          · rw [hc] at htb; simp at htb
        · exact ⟨q, hq2, hmiss⟩
      obtain ⟨q, hq, hmiss, heq⟩ := ih hrest
      refine ⟨q, List.mem_cons_of_mem p hq, hmiss, ?_⟩
      simp only [resolveBranchPairsAux, ← hsb, ← htb, heq]

/-- C6.  Resolver happy path: when the source environment resolves and an
adjacent target environment exists, and every project of the input list has
a truthy (present and non-empty) branchMap entry for both the source and
the target environment, `resolveBranchPairs` succeeds with exactly one
`BranchPair` per input project, in input order, whose source and target
branches are that project's branchMap entries for the two environments. -/
theorem c6_resolver_happy_path (environments : List Environment)
    (sourceEnvName : String) (direction : Direction) (e t : Environment)
    (ps : List ProjectConfig)
    (hsrc : getEnvironmentByName environments sourceEnvName = some e)
    (htgt : (match direction with
             | .release => getNextEnvironment environments sourceEnvName
             | .backport => getPreviousEnvironment environments sourceEnvName) =
        some t)
    (hbm : ∀ p ∈ ps,
      (truthyStr (lookupBranch p.branchMap sourceEnvName)).isSome ∧
        (truthyStr (lookupBranch p.branchMap t.name)).isSome) :
    resolveBranchPairs environments sourceEnvName direction ps =
      Except.ok (ps.map (fun p =>
        ⟨p, (truthyStr (lookupBranch p.branchMap sourceEnvName)).getD "",
          (truthyStr (lookupBranch p.branchMap t.name)).getD ""⟩)) := by
  unfold resolveBranchPairs
  rw [hsrc, htgt]
  exact resolveBranchPairsAux_complete sourceEnvName t.name ps hbm

/-- Witness for C6: the §8 scenario — chain dev→staging→prod, project P,
promote from staging — yields exactly `[{P, release/staging, release/prod}]`. -/
theorem c6_witness :
    resolveBranchPairs chainW "staging" Direction.release [projP] =
      Except.ok [⟨projP, "release/staging", "release/prod"⟩] := by
  have h := c6_resolver_happy_path chainW "staging" Direction.release
    ⟨"staging", 1⟩ ⟨"prod", 2⟩ [projP] rfl rfl (by decide)
  rw [h]
  rfl

/-- C4.  Fail-fast on a missing branch mapping: when the source environment
resolves and an adjacent target exists, but some project of the input set
has a missing or empty branchMap entry for the source or the target
environment, `resolveBranchPairs` fails with a `missingBranchMapping` error
naming such a project together with the source and target environment names,
and returns no pair list at all (all-or-nothing). -/
theorem c4_missing_mapping_fail_fast (environments : List Environment)
    (sourceEnvName : String) (direction : Direction) (e t : Environment)
    (ps : List ProjectConfig)
    (hsrc : getEnvironmentByName environments sourceEnvName = some e)
    (htgt : (match direction with
             | .release => getNextEnvironment environments sourceEnvName
             | .backport => getPreviousEnvironment environments sourceEnvName) =
        some t)
    (hmiss : ∃ p ∈ ps,
      truthyStr (lookupBranch p.branchMap sourceEnvName) = none ∨
        truthyStr (lookupBranch p.branchMap t.name) = none) :
    (∃ q ∈ ps,
      (truthyStr (lookupBranch q.branchMap sourceEnvName) = none ∨
        truthyStr (lookupBranch q.branchMap t.name) = none) ∧
      resolveBranchPairs environments sourceEnvName direction ps =
        Except.error
          (.missingBranchMapping q.name sourceEnvName t.name)) ∧
    ∀ l, resolveBranchPairs environments sourceEnvName direction ps ≠
        Except.ok l := by
  obtain ⟨q, hq, hm, heq⟩ :=
    resolveBranchPairsAux_missing sourceEnvName t.name ps hmiss
  have hres : resolveBranchPairs environments sourceEnvName direction ps =
      Except.error (.missingBranchMapping q.name sourceEnvName t.name) := by
    unfold resolveBranchPairs
    rw [hsrc, htgt]
    exact heq
  exact ⟨⟨q, hq, hm, hres⟩, fun l hl => by rw [hres] at hl; cases hl⟩

/-- Witness for C4: the §8 scenario with project Q (no `prod` entry),
promote from staging, fails naming Q, staging and prod, and yields no
pair list. -/
theorem c4_witness :
    (∃ q ∈ [projQ],
      (truthyStr (lookupBranch q.branchMap "staging") = none ∨
        truthyStr (lookupBranch q.branchMap "prod") = none) ∧
      resolveBranchPairs chainW "staging" Direction.release [projQ] =
        Except.error (.missingBranchMapping q.name "staging" "prod")) ∧
    ∀ l, resolveBranchPairs chainW "staging" Direction.release [projQ] ≠
        Except.ok l :=
  c4_missing_mapping_fail_fast chainW "staging" Direction.release
    ⟨"staging", 1⟩ ⟨"prod", 2⟩ [projQ] rfl rfl ⟨projQ, by decide, by decide⟩

/-- With unique environment names, looking an environment of the chain up
by its own name returns it. -/
theorem getEnvironmentByName_mem_self (envs : List Environment)
    (e : Environment) (he : e ∈ envs)
    (hnodup : (envs.map (fun x => x.name)).Nodup) :
    getEnvironmentByName envs e.name = some e := by
  induction envs with
  | nil => cases he
  | cons a rest ih =>
    rw [List.map_cons, List.nodup_cons] at hnodup
    rcases List.mem_cons.mp he with rfl | he2
    · simp [getEnvironmentByName]
    · have hne : (a.name == e.name) = false := by
        rw [beq_eq_false_iff_ne]
        intro hn
        exact hnodup.1 (hn ▸ List.mem_map_of_mem (fun x => x.name) he2)
      unfold getEnvironmentByName
      rw [List.find?_cons_of_neg _ (by simp [hne])]
      exact ih he2 hnodup.2

/-- `find?` by order succeeds when some chain element has the order. -/
theorem find_order_exists (envs : List Environment) (k : Int)
    (hex : ∃ t ∈ envs, t.order = k) :
    ∃ t, envs.find? (fun x => x.order == k) = some t ∧ t ∈ envs ∧
      t.order = k := by
  have hsome : (envs.find? (fun x => x.order == k)).isSome := by
    rw [List.find?_isSome]
    rcases hex with ⟨t, ht, hk⟩
    exact ⟨t, ht, by simp [hk]⟩
  rcases Option.isSome_iff_exists.mp hsome with ⟨t, ht⟩
  refine ⟨t, ht, List.mem_of_find?_eq_some ht, ?_⟩
  simpa using List.find?_some ht

/-- `find?` by order fails when no chain element has the order. -/
theorem find_order_none (envs : List Environment) (k : Int)
    (hnone : ∀ t ∈ envs, t.order ≠ k) :
    envs.find? (fun x => x.order == k) = none := by
  rw [List.find?_eq_none]
  intro t ht
  simp [hnone t ht]

/-- C5.  Adjacent-environment targeting over a valid chain: promote from an
environment at order `i` targets the environment at order `i+1` and demote
targets order `i-1`; promote from the last environment and demote from the
first yield `none` from the adjacency helpers, and `resolveBranchPairs`
then fails with `noAdjacentEnvironment`, producing no partial resolution. -/
theorem c5_adjacent_environment_targeting (envs : List Environment)
    (hv : ValidChain envs) (e : Environment) (he : e ∈ envs) :
    ((e.order + 1 < (envs.length : Int)) →
        ∃ t, getNextEnvironment envs e.name = some t ∧ t ∈ envs ∧
          t.order = e.order + 1) ∧
      (e.order + 1 = (envs.length : Int) →
        getNextEnvironment envs e.name = none ∧
          ∀ ps, resolveBranchPairs envs e.name Direction.release ps =
            Except.error (.noAdjacentEnvironment Direction.release e.name)) ∧
      (0 < e.order →
        ∃ t, getPreviousEnvironment envs e.name = some t ∧ t ∈ envs ∧
          t.order = e.order - 1) ∧
      (e.order = 0 →
        getPreviousEnvironment envs e.name = none ∧
          ∀ ps, resolveBranchPairs envs e.name Direction.backport ps =
            Except.error (.noAdjacentEnvironment Direction.backport e.name)) := by
  obtain ⟨hbound, hsurj, hnames⟩ := hv
  have hname := getEnvironmentByName_mem_self envs e he hnames
  have hnext : ∀ k : Int, getNextEnvironment envs e.name =
      envs.find? (fun x => x.order == e.order + 1) := by
    intro _
    unfold getNextEnvironment
    rw [hname]
  have hprev : getPreviousEnvironment envs e.name =
      envs.find? (fun x => x.order == e.order - 1) := by
    unfold getPreviousEnvironment
    rw [hname]
  refine ⟨?_, ?_, ?_, ?_⟩
  · intro hlt
    have h0 : (0 : Int) ≤ e.order := (hbound e he).1
    have hk : (e.order + 1).toNat ∈ List.range envs.length := by
      rw [List.mem_range]
      omega
    obtain ⟨t, ht, hto⟩ := hsurj (e.order + 1).toNat hk
    have hto2 : t.order = e.order + 1 := by omega
    obtain ⟨t2, hfind, hmem, hord⟩ :=
      find_order_exists envs (e.order + 1) ⟨t, ht, hto2⟩
    exact ⟨t2, by rw [hnext 0]; exact hfind, hmem, hord⟩
  · intro hlast
    have hn : getNextEnvironment envs e.name = none := by
      rw [hnext 0]
      refine find_order_none envs (e.order + 1) (fun t ht => ?_)
      have := (hbound t ht).2
      omega
    refine ⟨hn, fun ps => ?_⟩
    unfold resolveBranchPairs
    rw [hname]
    simp only [hn]
  · intro hpos
    have hk : (e.order - 1).toNat ∈ List.range envs.length := by
      rw [List.mem_range]
      have := (hbound e he).2
      omega
    obtain ⟨t, ht, hto⟩ := hsurj (e.order - 1).toNat hk
    have hto2 : t.order = e.order - 1 := by omega
    obtain ⟨t2, hfind, hmem, hord⟩ :=
      find_order_exists envs (e.order - 1) ⟨t, ht, hto2⟩
    exact ⟨t2, by rw [hprev]; exact hfind, hmem, hord⟩
  · intro hzero
    have hn : getPreviousEnvironment envs e.name = none := by
      rw [hprev]
      refine find_order_none envs (e.order - 1) (fun t ht => ?_)
      have := (hbound t ht).1
      omega
    refine ⟨hn, fun ps => ?_⟩
    unfold resolveBranchPairs
    rw [hname]
    simp only [hn]

/-- Witness for C5 on the dev→staging→prod chain: promote from staging
targets prod (order 2); promote from prod and demote from dev fail with
`noAdjacentEnvironment` and resolve to errors. -/
theorem c5_witness :
    (∃ t, getNextEnvironment chainW "staging" = some t ∧ t ∈ chainW ∧
        t.order = 2) ∧
      (getNextEnvironment chainW "prod" = none ∧
        resolveBranchPairs chainW "prod" Direction.release [projP] =
          Except.error
            (.noAdjacentEnvironment Direction.release "prod")) ∧
      (getPreviousEnvironment chainW "dev" = none ∧
        resolveBranchPairs chainW "dev" Direction.backport [projP] =
          Except.error
            (.noAdjacentEnvironment Direction.backport "dev")) := by
  have hv : ValidChain chainW := by
    refine ⟨by decide, by decide, by decide⟩
  have h1 := (c5_adjacent_environment_targeting chainW hv ⟨"staging", 1⟩
    (by decide)).1 (by decide)
  have h2 := (c5_adjacent_environment_targeting chainW hv ⟨"prod", 2⟩
    (by decide)).2.1 (by decide)
  have h3 := (c5_adjacent_environment_targeting chainW hv ⟨"dev", 0⟩
    (by decide)).2.2.2 (by decide)
  exact ⟨h1, ⟨h2.1, h2.2 [projP]⟩, ⟨h3.1, h3.2 [projP]⟩⟩

theorem adjacentPairs_length (l : List Environment) :
    (adjacentPairs l).length = l.length - 1 := by
  induction l with
  | nil => rfl
  | cons a t ih =>
    cases t with
    | nil => rfl
    | cons b t2 =>
      simp only [adjacentPairs, List.length_cons] at ih ⊢
      omega

theorem adjacentPairs_getElem (l : List Environment) (i : Nat) :
    (adjacentPairs l)[i]? =
      l[i]?.bind (fun a => (l[i + 1]?).map (fun b => (a, b))) := by
  induction l generalizing i with
  | nil => simp [adjacentPairs]
  | cons a t ih =>
    cases t with
    | nil => cases i <;> simp [adjacentPairs]
    | cons b t2 =>
      cases i with
      | zero => simp [adjacentPairs]
      | succ j =>
        have h := ih j
        simp only [List.getElem?_cons_succ] at h
        simpa [adjacentPairs] using h

theorem buildEnvPairs_none_none (envs : List Environment) :
    buildEnvPairs envs none none =
      (adjacentPairs (sortByOrder envs)).map
          (fun ab => EnvPair.mk ab.fst ab.snd Direction.release) ++
        (adjacentPairs (sortByOrder envs).reverse).map
          (fun ab => EnvPair.mk ab.fst ab.snd Direction.backport) := rfl

/-- C8.  Status pair enumeration with no filters: the result is the promote
pairs `(sorted[i], sorted[i+1])` for ascending `i` over the chain sorted by
`order`, followed by the demote pairs `(sorted[i], sorted[i-1])` for `i`
descending from the last position; chains of length 0 or 1 yield no pairs
whatever the filters, without error. -/
theorem c8_status_pair_enumeration (envs : List Environment) :
    ((buildEnvPairs envs none none).length = 2 * (envs.length - 1)) ∧
      (∀ i : Nat, i + 1 < envs.length →
        ∃ a b, (sortByOrder envs)[i]? = some a ∧
          (sortByOrder envs)[i + 1]? = some b ∧
          (buildEnvPairs envs none none)[i]? =
            some ⟨a, b, Direction.release⟩) ∧
      (∀ j : Nat, j + 1 < envs.length →
        ∃ a b, (sortByOrder envs)[envs.length - 1 - j]? = some a ∧
          (sortByOrder envs)[envs.length - 2 - j]? = some b ∧
          (buildEnvPairs envs none none)[envs.length - 1 + j]? =
            some ⟨a, b, Direction.backport⟩) ∧
      (∀ type sourceEnvName, envs.length ≤ 1 →
        buildEnvPairs envs type sourceEnvName = []) := by
  have hsortlen : (sortByOrder envs).length = envs.length :=
    List.length_mergeSort envs
  have hrellen :
      ((adjacentPairs (sortByOrder envs)).map
        (fun ab => EnvPair.mk ab.fst ab.snd Direction.release)).length =
      envs.length - 1 := by
    rw [List.length_map, adjacentPairs_length, hsortlen]
  have hbplen :
      ((adjacentPairs (sortByOrder envs).reverse).map
        (fun ab => EnvPair.mk ab.fst ab.snd Direction.backport)).length =
      envs.length - 1 := by
    rw [List.length_map, adjacentPairs_length, List.length_reverse, hsortlen]
  refine ⟨?_, ?_, ?_, ?_⟩
  · rw [buildEnvPairs_none_none, List.length_append, hrellen, hbplen]
    omega
  · intro i hi
    have hi1 : i < (sortByOrder envs).length := by omega
    have hi2 : i + 1 < (sortByOrder envs).length := by omega
    refine ⟨(sortByOrder envs)[i], (sortByOrder envs)[i + 1],
      List.getElem?_eq_getElem hi1, List.getElem?_eq_getElem hi2, ?_⟩
    rw [buildEnvPairs_none_none, List.getElem?_append, if_pos (by omega),
      List.getElem?_map, adjacentPairs_getElem,
      List.getElem?_eq_getElem hi1, List.getElem?_eq_getElem hi2]
    rfl
  · intro j hj
    have hb1 : envs.length - 1 - j < (sortByOrder envs).length := by omega
    have hb2 : envs.length - 2 - j < (sortByOrder envs).length := by omega
    refine ⟨(sortByOrder envs)[envs.length - 1 - j],
      (sortByOrder envs)[envs.length - 2 - j],
      List.getElem?_eq_getElem hb1, List.getElem?_eq_getElem hb2, ?_⟩
    rw [buildEnvPairs_none_none,
      List.getElem?_append_right (by omega), hrellen]
    have hidx : envs.length - 1 + j - (envs.length - 1) = j := by omega
    rw [hidx, List.getElem?_map, adjacentPairs_getElem]
    have hrj : (sortByOrder envs).reverse[j]? =
        (sortByOrder envs)[envs.length - 1 - j]? := by
      rw [List.getElem?_reverse (by omega), hsortlen]
    have hrj1 : (sortByOrder envs).reverse[j + 1]? =
        (sortByOrder envs)[envs.length - 2 - j]? := by
      rw [List.getElem?_reverse (by omega), hsortlen]
      congr 1
      omega
    rw [hrj, hrj1, List.getElem?_eq_getElem hb1, List.getElem?_eq_getElem hb2]
    rfl
  · intro type sourceEnvName hlen
    have hadj : adjacentPairs (sortByOrder envs) = [] := by
      cases h : sortByOrder envs with
      | nil => rfl
      | cons a t2 =>
        cases t2 with
        | nil => rfl
        | cons b t3 =>
          exfalso
          have := hsortlen
          rw [h] at this
          simp at this
          omega
    have hadjr : adjacentPairs (sortByOrder envs).reverse = [] := by
      cases h : (sortByOrder envs).reverse with
      | nil => rfl
      | cons a t2 =>
        cases t2 with
        | nil => rfl
        | cons b t3 =>
          exfalso
          have h2 : (sortByOrder envs).reverse.length = envs.length := by
            rw [List.length_reverse, hsortlen]
          rw [h] at h2
          simp at h2
          omega
    cases type <;> cases sourceEnvName <;>
      simp [buildEnvPairs, hadj, hadjr]

/-- Witness for C8 on the dev→staging→prod chain: the first release pair,
the first backport pair (indices 0 and 2 of the unfiltered result), and the
empty result on a singleton chain with filters. -/
theorem c8_witness :
    (∃ a b, (sortByOrder chainW)[0]? = some a ∧
      (sortByOrder chainW)[1]? = some b ∧
      (buildEnvPairs chainW none none)[0]? =
        some ⟨a, b, Direction.release⟩) ∧
    (∃ a b, (sortByOrder chainW)[2]? = some a ∧
      (sortByOrder chainW)[1]? = some b ∧
      (buildEnvPairs chainW none none)[2]? =
        some ⟨a, b, Direction.backport⟩) ∧
    buildEnvPairs [⟨"solo", 0⟩] (some "release") (some "solo") = [] :=
  ⟨(c8_status_pair_enumeration chainW).2.1 0 (by decide),
   (c8_status_pair_enumeration chainW).2.2.1 0 (by decide),
   (c8_status_pair_enumeration [⟨"solo", 0⟩]).2.2.2 (some "release")
     (some "solo") (by decide)⟩

theorem filter_release_dir_on_rel (l : List (Environment × Environment)) :
    (l.map (fun ab => EnvPair.mk ab.fst ab.snd Direction.release)).filter
        (fun p => p.direction.toStr == "release") =
      l.map (fun ab => EnvPair.mk ab.fst ab.snd Direction.release) := by
  induction l with
  | nil => rfl
  | cons a t ih =>
    simp only [List.map_cons, List.filter_cons]
    rw [ih]
    rfl

theorem filter_release_dir_on_bp (l : List (Environment × Environment)) :
    (l.map (fun ab => EnvPair.mk ab.fst ab.snd Direction.backport)).filter
        (fun p => p.direction.toStr == "release") = [] := by
  induction l with
  | nil => rfl
  | cons a t ih =>
    simp only [List.map_cons, List.filter_cons]
    rw [ih]
    rfl

theorem filter_backport_dir_on_bp (l : List (Environment × Environment)) :
    (l.map (fun ab => EnvPair.mk ab.fst ab.snd Direction.backport)).filter
        (fun p => p.direction.toStr == "backport") =
      l.map (fun ab => EnvPair.mk ab.fst ab.snd Direction.backport) := by
  induction l with
  | nil => rfl
  | cons a t ih =>
    simp only [List.map_cons, List.filter_cons]
    rw [ih]
    rfl

theorem filter_backport_dir_on_rel (l : List (Environment × Environment)) :
    (l.map (fun ab => EnvPair.mk ab.fst ab.snd Direction.release)).filter
        (fun p => p.direction.toStr == "backport") = [] := by
  induction l with
  | nil => rfl
  | cons a t ih =>
    simp only [List.map_cons, List.filter_cons]
    rw [ih]
    rfl

theorem filter_release_and_name_on_rel (l : List (Environment × Environment))
    (s : String) :
    (l.map (fun ab => EnvPair.mk ab.fst ab.snd Direction.release)).filter
        (fun p => p.direction.toStr == "release" && p.sourceEnv.name == s) =
      (l.map (fun ab => EnvPair.mk ab.fst ab.snd Direction.release)).filter
        (fun p => p.sourceEnv.name == s) := by
  induction l with
  | nil => rfl
  | cons a t ih =>
    simp only [List.map_cons, List.filter_cons]
    rw [ih]
    rfl

theorem filter_release_and_name_on_bp (l : List (Environment × Environment))
    (s : String) :
    (l.map (fun ab => EnvPair.mk ab.fst ab.snd Direction.backport)).filter
        (fun p => p.direction.toStr == "release" && p.sourceEnv.name == s) =
      [] := by
  induction l with
  | nil => rfl
  | cons a t ih =>
    simp only [List.map_cons, List.filter_cons]
    rw [ih]
    rfl

theorem filter_backport_and_name_on_bp (l : List (Environment × Environment))
    (s : String) :
    (l.map (fun ab => EnvPair.mk ab.fst ab.snd Direction.backport)).filter
        (fun p => p.direction.toStr == "backport" && p.sourceEnv.name == s) =
      (l.map (fun ab => EnvPair.mk ab.fst ab.snd Direction.backport)).filter
        (fun p => p.sourceEnv.name == s) := by
  induction l with
  | nil => rfl
  | cons a t ih =>
    simp only [List.map_cons, List.filter_cons]
    rw [ih]
    rfl

theorem filter_backport_and_name_on_rel (l : List (Environment × Environment))
    (s : String) :
    (l.map (fun ab => EnvPair.mk ab.fst ab.snd Direction.release)).filter
        (fun p => p.direction.toStr == "backport" && p.sourceEnv.name == s) =
      [] := by
  induction l with
  | nil => rfl
  | cons a t ih =>
    simp only [List.map_cons, List.filter_cons]
    rw [ih]
    rfl

/-- C9.  The status filters are pure intersections: filtering by a
direction, by a non-empty source environment name, or by both, equals
post-filtering the unfiltered pair list by the corresponding predicates,
preserving the relative order of survivors — although the code applies the
direction filter during construction. -/
theorem c9_status_filters_are_intersections (envs : List Environment)
    (d : String) (hd : d = "release" ∨ d = "backport") (s : String)
    (hs : s ≠ "") :
    buildEnvPairs envs (some d) none =
      (buildEnvPairs envs none none).filter
        (fun p => p.direction.toStr == d) ∧
    buildEnvPairs envs none (some s) =
      (buildEnvPairs envs none none).filter
        (fun p => p.sourceEnv.name == s) ∧
    buildEnvPairs envs (some d) (some s) =
      (buildEnvPairs envs none none).filter
        (fun p => p.direction.toStr == d && p.sourceEnv.name == s) := by
  have hsb : (s == "") = false := beq_eq_false_iff_ne.mpr hs
  rcases hd with rfl | rfl
  · refine ⟨?_, ?_, ?_⟩
    · have hL : buildEnvPairs envs (some "release") none =
          (adjacentPairs (sortByOrder envs)).map
            (fun ab : Environment × Environment => EnvPair.mk ab.fst ab.snd Direction.release) ++ [] := rfl
      rw [hL, List.append_nil, buildEnvPairs_none_none, List.filter_append,
        filter_release_dir_on_rel, filter_release_dir_on_bp, List.append_nil]
    · simp only [buildEnvPairs, buildEnvPairs_none_none, hsb]
      simp [strFalsy]
    · have hL : buildEnvPairs envs (some "release") (some s) =
          ((adjacentPairs (sortByOrder envs)).map
              (fun ab : Environment × Environment => EnvPair.mk ab.fst ab.snd Direction.release) ++
            []).filter (fun p => p.sourceEnv.name == s) := by
        simp only [buildEnvPairs]
        simp [strFalsy, hsb]
      rw [hL, List.append_nil, buildEnvPairs_none_none, List.filter_append,
        filter_release_and_name_on_rel, filter_release_and_name_on_bp,
        List.append_nil]
  · refine ⟨?_, ?_, ?_⟩
    · have hL : buildEnvPairs envs (some "backport") none =
          [] ++ (adjacentPairs (sortByOrder envs).reverse).map
            (fun ab : Environment × Environment => EnvPair.mk ab.fst ab.snd Direction.backport) := rfl
      rw [hL, List.nil_append, buildEnvPairs_none_none, List.filter_append,
        filter_backport_dir_on_rel, filter_backport_dir_on_bp,
        List.nil_append]
    · simp only [buildEnvPairs, buildEnvPairs_none_none, hsb]
      simp [strFalsy]
    · have hL : buildEnvPairs envs (some "backport") (some s) =
          ([] ++ (adjacentPairs (sortByOrder envs).reverse).map
              (fun ab : Environment × Environment => EnvPair.mk ab.fst ab.snd Direction.backport)).filter
            (fun p => p.sourceEnv.name == s) := by
        simp only [buildEnvPairs]
        simp [strFalsy, hsb]
      rw [hL, List.nil_append, buildEnvPairs_none_none, List.filter_append,
        filter_backport_and_name_on_rel, filter_backport_and_name_on_bp,
        List.nil_append]

/-- Witness for C9 on the dev→staging→prod chain with direction backport
and source environment staging. -/
theorem c9_witness :
    buildEnvPairs chainW (some "backport") none =
      (buildEnvPairs chainW none none).filter
        (fun p => p.direction.toStr == "backport") ∧
    buildEnvPairs chainW none (some "staging") =
      (buildEnvPairs chainW none none).filter
        (fun p => p.sourceEnv.name == "staging") ∧
    buildEnvPairs chainW (some "backport") (some "staging") =
      (buildEnvPairs chainW none none).filter
        (fun p => p.direction.toStr == "backport" &&
          p.sourceEnv.name == "staging") :=
  c9_status_filters_are_intersections chainW "backport" (Or.inr rfl)
    "staging" (by decide)

/-- The body of the inner scan loop of `runStatus` contributes exactly
`statusCombo` for its (project, pair) combination. -/
theorem statusScan_body_eq
    (query : String → String → String → Except String (List MrNode))
    (groupsOf : String → List String) (project : ProjectConfig)
    (pair : EnvPair) (acc : List OpenMergeRequest) :
    (match truthyStr (lookupBranch project.branchMap pair.sourceEnv.name),
           truthyStr (lookupBranch project.branchMap pair.targetEnv.name) with
     | some sourceBranch, some targetBranch =>
       match query project.fullPath sourceBranch targetBranch with
       | Except.ok mrs =>
           acc ++ statusRecordsFor project groupsOf pair sourceBranch
             targetBranch mrs
       | Except.error _ => acc
     | _, _ => acc) = acc ++ statusCombo query groupsOf project pair := by
  unfold statusCombo
  cases truthyStr (lookupBranch project.branchMap pair.sourceEnv.name) with
  | none =>
    cases truthyStr (lookupBranch project.branchMap pair.targetEnv.name) <;>
      simp
  | some sb =>
    cases truthyStr (lookupBranch project.branchMap pair.targetEnv.name) with
    | none => simp
    | some tb => cases hq2 : query project.fullPath sb tb <;> simp [hq2]

/-- The inner scan loop over the environment pairs appends the flat map of
the per-combination contributions. -/
theorem statusScan_inner
    (query : String → String → String → Except String (List MrNode))
    (groupsOf : String → List String) (project : ProjectConfig)
    (envPairs : List EnvPair) (acc : List OpenMergeRequest) :
    envPairs.foldl (fun acc2 pair =>
      match truthyStr (lookupBranch project.branchMap pair.sourceEnv.name),
            truthyStr (lookupBranch project.branchMap pair.targetEnv.name) with
      | some sourceBranch, some targetBranch =>
        match query project.fullPath sourceBranch targetBranch with
        | Except.ok mrs =>
            acc2 ++ statusRecordsFor project groupsOf pair sourceBranch
              targetBranch mrs
        | Except.error _ => acc2
      | _, _ => acc2) acc =
      acc ++ envPairs.flatMap (statusCombo query groupsOf project) := by
  induction envPairs generalizing acc with
  | nil => simp
  | cons pair rest ih =>
    rw [List.foldl_cons, ih, statusScan_body_eq query groupsOf project pair acc,
      List.flatMap_cons, List.append_assoc]

/-- C10.  Status-query tolerance: the scan over the Cartesian product of
projects and environment pairs equals the flat map of independent
per-combination contributions in product order, where a combination with a
missing or empty branch mapping contributes nothing (silently skipped), and
a combination whose client query fails contributes nothing — neither kind
of failure aborts the scan, so every other combination is still queried and
its records returned. -/
theorem c10_status_scan_tolerance
    (query : String → String → String → Except String (List MrNode))
    (groupsOf : String → List String)
    (projectsToQuery : List ProjectConfig) (envPairs : List EnvPair) :
    (statusScan query groupsOf projectsToQuery envPairs =
      projectsToQuery.flatMap (fun project =>
        envPairs.flatMap (statusCombo query groupsOf project))) ∧
    (∀ project pair,
      (truthyStr (lookupBranch project.branchMap pair.sourceEnv.name) = none ∨
        truthyStr (lookupBranch project.branchMap pair.targetEnv.name) = none) →
      statusCombo query groupsOf project pair = []) ∧
    (∀ project pair sb tb m,
      truthyStr (lookupBranch project.branchMap pair.sourceEnv.name) =
        some sb →
      truthyStr (lookupBranch project.branchMap pair.targetEnv.name) =
        some tb →
      query project.fullPath sb tb = Except.error m →
      statusCombo query groupsOf project pair = []) := by
  refine ⟨?_, ?_, ?_⟩
  · have houter : ∀ (ps : List ProjectConfig) (acc : List OpenMergeRequest),
        ps.foldl (fun acc project =>
          envPairs.foldl (fun acc2 pair =>
            match truthyStr (lookupBranch project.branchMap pair.sourceEnv.name),
                  truthyStr (lookupBranch project.branchMap pair.targetEnv.name) with
            | some sourceBranch, some targetBranch =>
              match query project.fullPath sourceBranch targetBranch with
              | Except.ok mrs =>
                  acc2 ++ statusRecordsFor project groupsOf pair sourceBranch
                    targetBranch mrs
              | Except.error _ => acc2
            | _, _ => acc2) acc) acc =
          acc ++ ps.flatMap (fun project =>
            envPairs.flatMap (statusCombo query groupsOf project)) := by
      intro ps
      induction ps with
      | nil => intro acc; simp
      | cons project rest ih =>
        intro acc
        rw [List.foldl_cons, statusScan_inner query groupsOf project envPairs
          acc, ih, List.flatMap_cons, List.append_assoc]
    have := houter projectsToQuery []
    rw [List.nil_append] at this
    exact this
  · intro project pair h
    unfold statusCombo
    rcases h with h | h
    · simp [h]
    · cases hs : truthyStr (lookupBranch project.branchMap pair.sourceEnv.name) with
      | none => rfl
      | some sb => simp [h]
  · intro project pair sb tb m hs ht hq
    unfold statusCombo
    rw [hs, ht]
    simp [hq]

/-- Witness for C10: one project with a complete mapping whose query fails,
one project lacking the target mapping; both combinations contribute
nothing, by the claim theorem applied at this input. -/
theorem c10_witness :
    (statusCombo (fun _ _ _ => Except.error "boom") (fun _ => [])
      projP ⟨⟨"staging", 1⟩, ⟨"prod", 2⟩, Direction.release⟩ = []) ∧
    (statusCombo (fun _ _ _ => Except.ok [nodeW]) (fun _ => [])
      projQ ⟨⟨"staging", 1⟩, ⟨"prod", 2⟩, Direction.release⟩ = []) :=
  ⟨(c10_status_scan_tolerance (fun _ _ _ => Except.error "boom")
      (fun _ => []) [projP] []).2.2 projP
      ⟨⟨"staging", 1⟩, ⟨"prod", 2⟩, Direction.release⟩
      "release/staging" "release/prod" "boom" rfl rfl rfl,
   (c10_status_scan_tolerance (fun _ _ _ => Except.ok [nodeW])
      (fun _ => []) [projQ] []).2.1 projQ
      ⟨⟨"staging", 1⟩, ⟨"prod", 2⟩, Direction.release⟩ (Or.inr rfl)⟩


/-! ### Behaviour of the client over the logging transport -/


theorem oracleCreate_eq (o : WireOracle) (url : String) (s0 : List WireCall)
    (pid title src tgt : String) (desc : Option String) :
    (oracleClient o url).createMergeRequest s0 pid title src tgt desc =
      (match o.onCreate s0 pid title src tgt desc with
       | HttpResp.ok iid webUrl =>
           (Except.ok ⟨iid, webUrl⟩,
            s0 ++ [WireCall.create pid title src tgt desc])
       | HttpResp.errStatus status message =>
           if status == 409 then
             (Except.error "MR_ALREADY_EXISTS",
              s0 ++ [WireCall.create pid title src tgt desc])
           else
             (Except.error message,
              s0 ++ [WireCall.create pid title src tgt desc])) := by
  cases h : o.onCreate s0 pid title src tgt desc with
  | ok iid webUrl =>
    simp [GitlabClient.createMergeRequest, oracleClient, oracleWire, h]
  | errStatus st msg =>
    by_cases h409 : (st == 409) <;>
      simp [GitlabClient.createMergeRequest, oracleClient, oracleWire, h,
        h409]

theorem oracleUpdate_eq (o : WireOracle) (url : String) (s0 : List WireCall)
    (src tgt fp title : String) (desc : Option String) :
    (oracleClient o url).updateMergeRequest s0 src tgt fp title desc =
      (match o.onQuery s0 fp src tgt with
       | [] => (Except.error "NO_MR_FOUND", s0 ++ [WireCall.query fp src tgt])
       | node :: _ =>
         match o.onUpdate (s0 ++ [WireCall.query fp src tgt]) fp node.iid
             title with
         | some em =>
             (Except.error ("Failed to update MR: " ++ em),
              (s0 ++ [WireCall.query fp src tgt]) ++
                [WireCall.update fp node.iid title])
         | none =>
             (Except.ok ⟨extractExternalMrId node.id,
                if node.webUrl == "" then
                  url ++ "/" ++ fp ++ "/-/merge_requests/" ++ node.iid
                else node.webUrl⟩,
              (s0 ++ [WireCall.query fp src tgt]) ++
                [WireCall.update fp node.iid title])) := by
  cases h : o.onQuery s0 fp src tgt with
  | nil =>
    simp [GitlabClient.updateMergeRequest, oracleClient, oracleWire, h]
  | cons node rest =>
    cases h2 : o.onUpdate (s0 ++ [WireCall.query fp src tgt]) fp node.iid
        title with
    | none =>
      simp [GitlabClient.updateMergeRequest, oracleClient, oracleWire, h, h2]
    | some em =>
      simp [GitlabClient.updateMergeRequest, oracleClient, oracleWire, h, h2]


theorem oracleStep_created (o : WireOracle) (url : String)
    (s0 : List WireCall) (pair : BranchPair) (title : String)
    (desc : Option String) (iid webUrl : String)
    (hok : (oracleClient o url).createMergeRequest s0 pair.project.externalId
        title pair.sourceBranch pair.targetBranch desc =
      (Except.ok ⟨iid, webUrl⟩,
       s0 ++ [WireCall.create pair.project.externalId title pair.sourceBranch
         pair.targetBranch desc])) :
    executeMergeRequestStep (oracleClient o url) s0 pair title desc =
      (⟨pair.project, pair.sourceBranch, pair.targetBranch, MrStatus.created,
        some webUrl, none⟩,
       s0 ++ [WireCall.create pair.project.externalId title pair.sourceBranch
         pair.targetBranch desc]) := by
  unfold executeMergeRequestStep
  rw [hok]

theorem oracleStep_other_error (o : WireOracle) (url : String)
    (s0 : List WireCall) (pair : BranchPair) (title : String)
    (desc : Option String) (msg : String)
    (herr : (oracleClient o url).createMergeRequest s0
        pair.project.externalId title pair.sourceBranch pair.targetBranch
        desc =
      (Except.error msg,
       s0 ++ [WireCall.create pair.project.externalId title pair.sourceBranch
         pair.targetBranch desc]))
    (hne : (msg == "MR_ALREADY_EXISTS") = false) :
    executeMergeRequestStep (oracleClient o url) s0 pair title desc =
      (⟨pair.project, pair.sourceBranch, pair.targetBranch, MrStatus.failed,
        none, some msg⟩,
       s0 ++ [WireCall.create pair.project.externalId title pair.sourceBranch
         pair.targetBranch desc]) := by
  unfold executeMergeRequestStep
  rw [herr]
  simp [hne]

theorem oracleStep_conflict_not_found (o : WireOracle) (url : String)
    (s0 : List WireCall) (pair : BranchPair) (title : String)
    (desc : Option String)
    (hconf : (oracleClient o url).createMergeRequest s0
        pair.project.externalId title pair.sourceBranch pair.targetBranch
        desc =
      (Except.error "MR_ALREADY_EXISTS",
       s0 ++ [WireCall.create pair.project.externalId title pair.sourceBranch
         pair.targetBranch desc]))
    (hq : o.onQuery (s0 ++ [WireCall.create pair.project.externalId title
        pair.sourceBranch pair.targetBranch desc]) pair.project.fullPath
        pair.sourceBranch pair.targetBranch = []) :
    executeMergeRequestStep (oracleClient o url) s0 pair title desc =
      (⟨pair.project, pair.sourceBranch, pair.targetBranch, MrStatus.failed,
        none, some "NO_MR_FOUND"⟩,
       s0 ++ [WireCall.create pair.project.externalId title pair.sourceBranch
           pair.targetBranch desc,
         WireCall.query pair.project.fullPath pair.sourceBranch
           pair.targetBranch]) := by
  unfold executeMergeRequestStep
  rw [hconf]
  simp only [beq_self_eq_true, if_true]
  rw [oracleUpdate_eq, hq]
  simp

theorem oracleStep_conflict_found (o : WireOracle) (url : String)
    (s0 : List WireCall) (pair : BranchPair) (title : String)
    (desc : Option String) (node : MrNode) (rest : List MrNode)
    (hconf : (oracleClient o url).createMergeRequest s0
        pair.project.externalId title pair.sourceBranch pair.targetBranch
        desc =
      (Except.error "MR_ALREADY_EXISTS",
       s0 ++ [WireCall.create pair.project.externalId title pair.sourceBranch
         pair.targetBranch desc]))
    (hq : o.onQuery (s0 ++ [WireCall.create pair.project.externalId title
        pair.sourceBranch pair.targetBranch desc]) pair.project.fullPath
        pair.sourceBranch pair.targetBranch = node :: rest) :
    executeMergeRequestStep (oracleClient o url) s0 pair title desc =
      ((match o.onUpdate ((s0 ++ [WireCall.create pair.project.externalId
          title pair.sourceBranch pair.targetBranch desc]) ++
          [WireCall.query pair.project.fullPath pair.sourceBranch
            pair.targetBranch]) pair.project.fullPath node.iid title with
       | some em =>
           ⟨pair.project, pair.sourceBranch, pair.targetBranch,
             MrStatus.failed, none, some ("Failed to update MR: " ++ em)⟩
       | none =>
           ⟨pair.project, pair.sourceBranch, pair.targetBranch,
             MrStatus.updated,
             some (if node.webUrl == "" then
               url ++ "/" ++ pair.project.fullPath ++ "/-/merge_requests/" ++
                 node.iid
             else node.webUrl), none⟩),
       ((s0 ++ [WireCall.create pair.project.externalId title
           pair.sourceBranch pair.targetBranch desc]) ++
         [WireCall.query pair.project.fullPath pair.sourceBranch
           pair.targetBranch]) ++
         [WireCall.update pair.project.fullPath node.iid title]) := by
  unfold executeMergeRequestStep
  rw [hconf]
  simp only [beq_self_eq_true, if_true]
  rw [oracleUpdate_eq, hq]
  cases h3 : o.onUpdate ((s0 ++ [WireCall.create pair.project.externalId
      title pair.sourceBranch pair.targetBranch desc]) ++
      [WireCall.query pair.project.fullPath pair.sourceBranch
        pair.targetBranch]) pair.project.fullPath node.iid title with
  | none =>
    simp only [List.append_assoc, List.singleton_append, List.cons_append,
      List.nil_append] at h3
    simp [h3]
  | some em =>
    simp only [List.append_assoc, List.singleton_append, List.cons_append,
      List.nil_append] at h3
    simp [h3]


/-- C2.  Per-pair conflict algorithm: when the create call answers HTTP 409
(the conflict signal), the reconciler issues the open-MR query for exactly
this (fullPath, sourceBranch, targetBranch); if it answers no MR the
outcome is `failed` with `NO_MR_FOUND` and the transport trace shows the
lone create and the query — no second create and no update call; if it
answers a first node whose title mutation succeeds, the outcome is
`updated` carrying the existing MR's URL and the trace ends with the title
update; if the mutation fails, the outcome is `failed` with the update
error; and a non-conflict creation error (non-409 status whose message is
not the conflict signal) fails immediately, the trace showing no query and
no update call. -/
theorem c2_conflict_update_path (o : WireOracle) (url : String)
    (s0 : List WireCall) (pair : BranchPair) (title : String)
    (desc : Option String) :
    (∀ m, o.onCreate s0 pair.project.externalId title pair.sourceBranch
        pair.targetBranch desc = HttpResp.errStatus 409 m →
      ((o.onQuery (s0 ++ [WireCall.create pair.project.externalId title
          pair.sourceBranch pair.targetBranch desc]) pair.project.fullPath
          pair.sourceBranch pair.targetBranch = [] →
        executeMergeRequests (oracleClient o url) s0 [pair] title desc =
          ([⟨pair.project, pair.sourceBranch, pair.targetBranch,
             MrStatus.failed, none, some "NO_MR_FOUND"⟩],
           s0 ++ [WireCall.create pair.project.externalId title
               pair.sourceBranch pair.targetBranch desc,
             WireCall.query pair.project.fullPath pair.sourceBranch
               pair.targetBranch])) ∧
       (∀ node rest, o.onQuery (s0 ++ [WireCall.create
            pair.project.externalId title pair.sourceBranch
            pair.targetBranch desc]) pair.project.fullPath pair.sourceBranch
            pair.targetBranch = node :: rest →
         (o.onUpdate ((s0 ++ [WireCall.create pair.project.externalId title
              pair.sourceBranch pair.targetBranch desc]) ++
              [WireCall.query pair.project.fullPath pair.sourceBranch
                pair.targetBranch]) pair.project.fullPath node.iid title =
              none →
           executeMergeRequests (oracleClient o url) s0 [pair] title desc =
             ([⟨pair.project, pair.sourceBranch, pair.targetBranch,
                MrStatus.updated,
                some (if node.webUrl == "" then
                  url ++ "/" ++ pair.project.fullPath ++
                    "/-/merge_requests/" ++ node.iid
                else node.webUrl), none⟩],
              ((s0 ++ [WireCall.create pair.project.externalId title
                  pair.sourceBranch pair.targetBranch desc]) ++
                [WireCall.query pair.project.fullPath pair.sourceBranch
                  pair.targetBranch]) ++
                [WireCall.update pair.project.fullPath node.iid title])) ∧
         (∀ em, o.onUpdate ((s0 ++ [WireCall.create pair.project.externalId
              title pair.sourceBranch pair.targetBranch desc]) ++
              [WireCall.query pair.project.fullPath pair.sourceBranch
                pair.targetBranch]) pair.project.fullPath node.iid title =
              some em →
           executeMergeRequests (oracleClient o url) s0 [pair] title desc =
             ([⟨pair.project, pair.sourceBranch, pair.targetBranch,
                MrStatus.failed, none,
                some ("Failed to update MR: " ++ em)⟩],
              ((s0 ++ [WireCall.create pair.project.externalId title
                  pair.sourceBranch pair.targetBranch desc]) ++
                [WireCall.query pair.project.fullPath pair.sourceBranch
                  pair.targetBranch]) ++
                [WireCall.update pair.project.fullPath node.iid title]))))) ∧
    (∀ st m, o.onCreate s0 pair.project.externalId title pair.sourceBranch
        pair.targetBranch desc = HttpResp.errStatus st m →
      (st == 409) = false → (m == "MR_ALREADY_EXISTS") = false →
      executeMergeRequests (oracleClient o url) s0 [pair] title desc =
        ([⟨pair.project, pair.sourceBranch, pair.targetBranch,
           MrStatus.failed, none, some m⟩],
         s0 ++ [WireCall.create pair.project.externalId title
           pair.sourceBranch pair.targetBranch desc])) := by
  constructor
  · intro m hcr
    have hconf : (oracleClient o url).createMergeRequest s0
        pair.project.externalId title pair.sourceBranch pair.targetBranch
        desc =
        (Except.error "MR_ALREADY_EXISTS",
         s0 ++ [WireCall.create pair.project.externalId title
           pair.sourceBranch pair.targetBranch desc]) := by
      rw [oracleCreate_eq, hcr]
      simp
    refine ⟨?_, ?_⟩
    · intro hq
      rw [executeMergeRequests_cons,
        oracleStep_conflict_not_found o url s0 pair title desc hconf hq]
      simp [executeMergeRequests_nil]
    · intro node rest hq
      refine ⟨?_, ?_⟩
      · intro hupd
        rw [executeMergeRequests_cons,
          oracleStep_conflict_found o url s0 pair title desc node rest hconf
            hq]
        rw [hupd]
        simp [executeMergeRequests_nil]
      · intro em hupd
        rw [executeMergeRequests_cons,
          oracleStep_conflict_found o url s0 pair title desc node rest hconf
            hq]
        rw [hupd]
        simp [executeMergeRequests_nil]
  · intro st m hcr h409 hne
    have herr : (oracleClient o url).createMergeRequest s0
        pair.project.externalId title pair.sourceBranch pair.targetBranch
        desc =
        (Except.error m,
         s0 ++ [WireCall.create pair.project.externalId title
           pair.sourceBranch pair.targetBranch desc]) := by
      rw [oracleCreate_eq, hcr]
      simp [h409]
    rw [executeMergeRequests_cons,
      oracleStep_other_error o url s0 pair title desc m herr hne]
    simp [executeMergeRequests_nil]

/-- Witness for C2: the four branches at concrete oracles — conflict with
no open MR found, conflict resolved by a title update, conflict whose
update fails, and a non-conflict HTTP 500. -/
theorem c2_witness :
    (executeMergeRequests (oracleClient oracleConflictNone
        "https://gitlab.com") [] [pairW] "wave" none =
      ([⟨projP, "release/staging", "release/prod", MrStatus.failed, none,
         some "NO_MR_FOUND"⟩],
       [WireCall.create "42" "wave" "release/staging" "release/prod" none,
        WireCall.query "grp/p" "release/staging" "release/prod"])) ∧
    (executeMergeRequests (oracleClient oracleConflictFound
        "https://gitlab.com") [] [pairW] "wave" none =
      ([⟨projP, "release/staging", "release/prod", MrStatus.updated,
         some "https://host/grp/p/-/merge_requests/7", none⟩],
       [WireCall.create "42" "wave" "release/staging" "release/prod" none,
        WireCall.query "grp/p" "release/staging" "release/prod",
        WireCall.update "grp/p" "7" "wave"])) ∧
    (executeMergeRequests (oracleClient oracleUpdateFails
        "https://gitlab.com") [] [pairW] "wave" none =
      ([⟨projP, "release/staging", "release/prod", MrStatus.failed, none,
         some "Failed to update MR: boom"⟩],
       [WireCall.create "42" "wave" "release/staging" "release/prod" none,
        WireCall.query "grp/p" "release/staging" "release/prod",
        WireCall.update "grp/p" "7" "wave"])) ∧
    (executeMergeRequests (oracleClient oracleServerError
        "https://gitlab.com") [] [pairW] "wave" none =
      ([⟨projP, "release/staging", "release/prod", MrStatus.failed, none,
         some "Request failed with status code 500"⟩],
       [WireCall.create "42" "wave" "release/staging" "release/prod" none])) :=
  ⟨((c2_conflict_update_path oracleConflictNone "https://gitlab.com" []
      pairW "wave" none).1 "409 Conflict" rfl).1 rfl,
   (((c2_conflict_update_path oracleConflictFound "https://gitlab.com" []
      pairW "wave" none).1 "409 Conflict" rfl).2 nodeW [] rfl).1 rfl,
   (((c2_conflict_update_path oracleUpdateFails "https://gitlab.com" []
      pairW "wave" none).1 "409 Conflict" rfl).2 nodeW [] rfl).2 "boom" rfl,
   (c2_conflict_update_path oracleServerError "https://gitlab.com" []
      pairW "wave" none).2 500 "Request failed with status code 500" rfl rfl
      rfl⟩

/-- Every transport call one reconciler step appends to the trace is
well-formed for the run: create calls carry the run's title and
description, query calls are just lookups, and update calls carry exactly
the run's title (the update wire operation has no description slot at
all). -/
theorem oracleStep_trace_all (o : WireOracle) (url : String)
    (pair : BranchPair) (title : String) (desc : Option String)
    (P : WireCall → Bool)
    (hcreate : ∀ pid src tgt,
      P (WireCall.create pid title src tgt desc) = true)
    (hquery : ∀ fp src tgt, P (WireCall.query fp src tgt) = true)
    (hupdate : ∀ fp iid, P (WireCall.update fp iid title) = true)
    (s0 : List WireCall) (h : s0.all P = true) :
    ((executeMergeRequestStep (oracleClient o url) s0 pair title
        desc).2).all P = true := by
  cases hcr : o.onCreate s0 pair.project.externalId title pair.sourceBranch
      pair.targetBranch desc with
  | ok iid webUrl =>
    have hok : (oracleClient o url).createMergeRequest s0
        pair.project.externalId title pair.sourceBranch pair.targetBranch
        desc =
        (Except.ok ⟨iid, webUrl⟩,
         s0 ++ [WireCall.create pair.project.externalId title
           pair.sourceBranch pair.targetBranch desc]) := by
      rw [oracleCreate_eq, hcr]
    rw [oracleStep_created o url s0 pair title desc iid webUrl hok]
    simp [List.all_append, h, hcreate]
  | errStatus st msg =>
    by_cases h409 : (st == 409) = true
    · have hconf : (oracleClient o url).createMergeRequest s0
          pair.project.externalId title pair.sourceBranch pair.targetBranch
          desc =
          (Except.error "MR_ALREADY_EXISTS",
           s0 ++ [WireCall.create pair.project.externalId title
             pair.sourceBranch pair.targetBranch desc]) := by
        rw [oracleCreate_eq, hcr]
        simp [h409]
      cases hq : o.onQuery (s0 ++ [WireCall.create pair.project.externalId
          title pair.sourceBranch pair.targetBranch desc])
          pair.project.fullPath pair.sourceBranch pair.targetBranch with
      | nil =>
        rw [oracleStep_conflict_not_found o url s0 pair title desc hconf hq]
        simp [List.all_append, h, hcreate, hquery]
      | cons node rest =>
        rw [oracleStep_conflict_found o url s0 pair title desc node rest
          hconf hq]
        simp [List.all_append, h, hcreate, hquery, hupdate]
    · by_cases hmsg : (msg == "MR_ALREADY_EXISTS") = true
      · have hmeq : msg = "MR_ALREADY_EXISTS" := by
          exact eq_of_beq hmsg
        subst hmeq
        have hconf : (oracleClient o url).createMergeRequest s0
            pair.project.externalId title pair.sourceBranch
            pair.targetBranch desc =
            (Except.error "MR_ALREADY_EXISTS",
             s0 ++ [WireCall.create pair.project.externalId title
               pair.sourceBranch pair.targetBranch desc]) := by
          rw [oracleCreate_eq, hcr]
          simp [h409]
        cases hq : o.onQuery (s0 ++ [WireCall.create pair.project.externalId
            title pair.sourceBranch pair.targetBranch desc])
            pair.project.fullPath pair.sourceBranch pair.targetBranch with
        | nil =>
          rw [oracleStep_conflict_not_found o url s0 pair title desc hconf
            hq]
          simp [List.all_append, h, hcreate, hquery]
        | cons node rest =>
          rw [oracleStep_conflict_found o url s0 pair title desc node rest
            hconf hq]
          simp [List.all_append, h, hcreate, hquery, hupdate]
      · have herr : (oracleClient o url).createMergeRequest s0
            pair.project.externalId title pair.sourceBranch
            pair.targetBranch desc =
            (Except.error msg,
             s0 ++ [WireCall.create pair.project.externalId title
               pair.sourceBranch pair.targetBranch desc]) := by
          rw [oracleCreate_eq, hcr]
          simp [h409]
        rw [oracleStep_other_error o url s0 pair title desc msg herr
          (by simpa using hmsg)]
        simp [List.all_append, h, hcreate]

/-- Fold of `oracleStep_trace_all` over a whole run. -/
theorem oracleExec_trace_all (o : WireOracle) (url : String)
    (title : String) (desc : Option String) (P : WireCall → Bool)
    (hcreate : ∀ pid src tgt,
      P (WireCall.create pid title src tgt desc) = true)
    (hquery : ∀ fp src tgt, P (WireCall.query fp src tgt) = true)
    (hupdate : ∀ fp iid, P (WireCall.update fp iid title) = true)
    (pairs : List BranchPair) :
    ∀ s0 : List WireCall, s0.all P = true →
      ((executeMergeRequests (oracleClient o url) s0 pairs title
          desc).2).all P = true := by
  induction pairs with
  | nil =>
    intro s0 h
    simpa [executeMergeRequests_nil] using h
  | cons pair rest ih =>
    intro s0 h
    rw [executeMergeRequests_cons]
    exact ih _ (oracleStep_trace_all o url pair title desc P hcreate hquery
      hupdate s0 h)

/-- C7.  The update path touches only the title: the client's
`updateMergeRequest` result and effect are entirely independent of the
description argument it receives (first conjunct, for every client and
state), and over any server behaviour an entire reconciliation run only
ever issues update calls carrying exactly the run's title — descriptions
travel only in create calls, which carry the run's description (second
conjunct; the update wire operation, like the GraphQL mutation it models,
has no description field). -/
theorem c7_update_touches_only_title :
    (∀ (σ : Type) (c : GitlabClient σ) (s : σ)
        (sourceBranch targetBranch projectFullPath title : String)
        (d1 d2 : Option String),
      c.updateMergeRequest s sourceBranch targetBranch projectFullPath title
          d1 =
        c.updateMergeRequest s sourceBranch targetBranch projectFullPath
          title d2) ∧
    (∀ (o : WireOracle) (url : String) (pairs : List BranchPair)
        (title : String) (desc : Option String),
      ((executeMergeRequests (oracleClient o url) [] pairs title
          desc).2).all
        (fun e => match e with
          | WireCall.update _ _ t => t == title
          | WireCall.create _ t _ _ d => t == title && d == desc
          | WireCall.query _ _ _ => true) = true) := by
  constructor
  · intro σ c s sourceBranch targetBranch projectFullPath title d1 d2
    rfl
  · intro o url pairs title desc
    exact oracleExec_trace_all o url title desc _
      (fun pid src tgt => by simp)
      (fun fp src tgt => rfl)
      (fun fp iid => by simp)
      pairs [] rfl


/-! ### Reconciliation against the model host -/


theorem serverCreate_eq (url : String) (s : ServerState)
    (pid title src tgt : String) (desc : Option String) :
    (serverClient url).createMergeRequest s pid title src tgt desc =
      (if hasMrKey s pid src tgt then (Except.error "MR_ALREADY_EXISTS", s)
       else
         (Except.ok ⟨toString s.nextIid,
            "https://host/" ++ s.pathOf pid ++ "/-/merge_requests/" ++
              toString s.nextIid⟩,
          { s with
              mrs := ⟨pid, src, tgt, title, s.nextIid⟩ :: s.mrs,
              nextIid := s.nextIid + 1 })) := by
  by_cases h : hasMrKey s pid src tgt <;>
    simp [GitlabClient.createMergeRequest, serverClient, serverWire, h]

theorem serverUpdate_eq (url : String) (s : ServerState)
    (src tgt fp title : String) (desc : Option String) :
    (serverClient url).updateMergeRequest s src tgt fp title desc =
      (match (s.mrs.filter (fun m =>
          s.pathOf m.projectExternalId == fp && m.sourceBranch == src &&
            m.targetBranch == tgt)).map (fun m => m.toNode fp) with
       | [] => (Except.error "NO_MR_FOUND", s)
       | node :: _ =>
         (Except.ok ⟨extractExternalMrId node.id,
            if node.webUrl == "" then
              url ++ "/" ++ fp ++ "/-/merge_requests/" ++ node.iid
            else node.webUrl⟩,
          { s with mrs := s.mrs.map (fun m =>
              if s.pathOf m.projectExternalId == fp &&
                  toString m.iid == node.iid then
                { m with title := title }
              else m) })) := by
  cases hE : (s.mrs.filter (fun m =>
      s.pathOf m.projectExternalId == fp && m.sourceBranch == src &&
        m.targetBranch == tgt)).map (fun m => m.toNode fp) with
  | nil =>
    simp [GitlabClient.updateMergeRequest, serverClient, serverWire, hE]
  | cons node rest =>
    simp [GitlabClient.updateMergeRequest, serverClient, serverWire, hE]

theorem mrMatchesKey_title_update (m : ServerMergeRequest) (t : String)
    (pid src tgt : String) :
    mrMatchesKey { m with title := t } pid src tgt =
      mrMatchesKey m pid src tgt := rfl

theorem mrKeyCount_eq_zero (s : ServerState) (pid src tgt : String)
    (h : hasMrKey s pid src tgt = false) :
    mrKeyCount s pid src tgt = 0 := by
  unfold mrKeyCount
  rw [List.length_eq_zero, List.filter_eq_nil_iff]
  intro m hm
  exact (List.any_eq_false.mp h) m hm

theorem mrKeyCount_map_title_update (s : ServerState)
    (g : ServerMergeRequest → ServerMergeRequest)
    (hg : ∀ m, mrMatchesKey (g m) = mrMatchesKey m)
    (pid src tgt : String) (mrs2 : List ServerMergeRequest)
    (hmrs : mrs2 = s.mrs.map g) (pf : String → String) (ni : Nat) :
    mrKeyCount ⟨pf, mrs2, ni⟩ pid src tgt = mrKeyCount ⟨s.pathOf, s.mrs, s.nextIid⟩ pid src tgt := by
  subst hmrs
  unfold mrKeyCount
  induction s.mrs with
  | nil => rfl
  | cons m rest ih =>
    simp only [List.map_cons, List.filter_cons, hg m]
    by_cases hm : mrMatchesKey m pid src tgt = true
    · simp [hm]
      exact ih
    · simp [hm]
      exact ih

theorem serverStep_created_eq (url : String) (s : ServerState)
    (pair : BranchPair) (title : String) (desc : Option String)
    (hkey : hasMrKey s pair.project.externalId pair.sourceBranch
      pair.targetBranch = false) :
    executeMergeRequestStep (serverClient url) s pair title desc =
      (⟨pair.project, pair.sourceBranch, pair.targetBranch, MrStatus.created,
        some ("https://host/" ++ s.pathOf pair.project.externalId ++
          "/-/merge_requests/" ++ toString s.nextIid), none⟩,
       { s with
           mrs := ⟨pair.project.externalId, pair.sourceBranch,
             pair.targetBranch, title, s.nextIid⟩ :: s.mrs,
           nextIid := s.nextIid + 1 }) := by
  unfold executeMergeRequestStep
  rw [serverCreate_eq]
  simp [hkey]

theorem serverStep_conflict_nil_eq (url : String) (s : ServerState)
    (pair : BranchPair) (title : String) (desc : Option String)
    (hkey : hasMrKey s pair.project.externalId pair.sourceBranch
      pair.targetBranch = true)
    (hfilter : (s.mrs.filter (fun m =>
        s.pathOf m.projectExternalId == pair.project.fullPath &&
          m.sourceBranch == pair.sourceBranch &&
          m.targetBranch == pair.targetBranch)).map
        (fun m => m.toNode pair.project.fullPath) = []) :
    executeMergeRequestStep (serverClient url) s pair title desc =
      (⟨pair.project, pair.sourceBranch, pair.targetBranch, MrStatus.failed,
        none, some "NO_MR_FOUND"⟩, s) := by
  unfold executeMergeRequestStep
  rw [serverCreate_eq]
  simp only [hkey, if_true]
  rw [serverUpdate_eq, hfilter]
  simp

theorem serverStep_conflict_cons_eq (url : String) (s : ServerState)
    (pair : BranchPair) (title : String) (desc : Option String)
    (node : MrNode) (rest : List MrNode)
    (hkey : hasMrKey s pair.project.externalId pair.sourceBranch
      pair.targetBranch = true)
    (hfilter : (s.mrs.filter (fun m =>
        s.pathOf m.projectExternalId == pair.project.fullPath &&
          m.sourceBranch == pair.sourceBranch &&
          m.targetBranch == pair.targetBranch)).map
        (fun m => m.toNode pair.project.fullPath) = node :: rest) :
    executeMergeRequestStep (serverClient url) s pair title desc =
      (⟨pair.project, pair.sourceBranch, pair.targetBranch, MrStatus.updated,
        some (if node.webUrl == "" then
          url ++ "/" ++ pair.project.fullPath ++ "/-/merge_requests/" ++
            node.iid
        else node.webUrl), none⟩,
       { s with mrs := s.mrs.map (fun m =>
           if s.pathOf m.projectExternalId == pair.project.fullPath &&
               toString m.iid == node.iid then
             { m with title := title }
           else m) }) := by
  unfold executeMergeRequestStep
  rw [serverCreate_eq]
  simp only [hkey, if_true]
  rw [serverUpdate_eq, hfilter]
  simp

theorem hasMrKey_map_eq (s : ServerState)
    (g : ServerMergeRequest → ServerMergeRequest)
    (hg : ∀ m, mrMatchesKey (g m) = mrMatchesKey m)
    (pid src tgt : String) (pf : String → String) (ni : Nat) :
    hasMrKey ⟨pf, s.mrs.map g, ni⟩ pid src tgt =
      hasMrKey s pid src tgt := by
  unfold hasMrKey
  induction s.mrs with
  | nil => rfl
  | cons m rest ih => simp only [List.map_cons, List.any_cons, hg m, ih]

theorem mrKeyCount_map_eq (s : ServerState)
    (g : ServerMergeRequest → ServerMergeRequest)
    (hg : ∀ m, mrMatchesKey (g m) = mrMatchesKey m)
    (pid src tgt : String) (pf : String → String) (ni : Nat) :
    mrKeyCount ⟨pf, s.mrs.map g, ni⟩ pid src tgt =
      mrKeyCount s pid src tgt := by
  unfold mrKeyCount
  induction s.mrs with
  | nil => rfl
  | cons m rest ih =>
    simp only [List.map_cons, List.filter_cons, hg m]
    by_cases hm : mrMatchesKey m pid src tgt = true <;> simp [hm, ih]

theorem titleRewrite_matches (fp iid title : String) (s : ServerState) :
    ∀ m, mrMatchesKey ((fun m =>
        if s.pathOf m.projectExternalId == fp && toString m.iid == iid then
          { m with title := title }
        else m) m) = mrMatchesKey m := by
  intro m
  by_cases hc : (s.pathOf m.projectExternalId == fp &&
      toString m.iid == iid) = true
  · simp only [hc, if_true]
    rfl
  · simp [hc]

theorem serverStep_invariants (url : String) (s : ServerState)
    (pair : BranchPair) (title : String) (desc : Option String) :
    ((executeMergeRequestStep (serverClient url) s pair title
        desc).2).pathOf = s.pathOf ∧
    (∀ pid src tgt, mrKeyCount s pid src tgt ≤ 1 →
      mrKeyCount (executeMergeRequestStep (serverClient url) s pair title
        desc).2 pid src tgt ≤ 1) ∧
    (∀ pid src tgt, hasMrKey s pid src tgt = true →
      hasMrKey (executeMergeRequestStep (serverClient url) s pair title
        desc).2 pid src tgt = true) := by
  by_cases hkey : hasMrKey s pair.project.externalId pair.sourceBranch
      pair.targetBranch = true
  · cases hfilter : (s.mrs.filter (fun m =>
        s.pathOf m.projectExternalId == pair.project.fullPath &&
          m.sourceBranch == pair.sourceBranch &&
          m.targetBranch == pair.targetBranch)).map
        (fun m => m.toNode pair.project.fullPath) with
    | nil =>
      rw [serverStep_conflict_nil_eq url s pair title desc hkey hfilter]
      exact ⟨rfl, fun _ _ _ h => h, fun _ _ _ h => h⟩
    | cons node rest =>
      rw [serverStep_conflict_cons_eq url s pair title desc node rest hkey
        hfilter]
      refine ⟨rfl, ?_, ?_⟩
      · intro pid src tgt h
        rw [mrKeyCount_map_eq s _
          (titleRewrite_matches pair.project.fullPath node.iid title s)]
        exact h
      · intro pid src tgt h
        rw [hasMrKey_map_eq s _
          (titleRewrite_matches pair.project.fullPath node.iid title s)]
        exact h
  · have hkeyf : hasMrKey s pair.project.externalId pair.sourceBranch
        pair.targetBranch = false := by
      simpa using hkey
    rw [serverStep_created_eq url s pair title desc hkeyf]
    refine ⟨rfl, ?_, ?_⟩
    · intro pid src tgt h
      unfold mrKeyCount
      simp only [List.filter_cons]
      by_cases hm : mrMatchesKey ⟨pair.project.externalId, pair.sourceBranch,
          pair.targetBranch, title, s.nextIid⟩ pid src tgt = true
      · have h1 : pair.project.externalId = pid ∧
            pair.sourceBranch = src ∧ pair.targetBranch = tgt := by
          simp only [mrMatchesKey, Bool.and_eq_true, beq_iff_eq] at hm
          exact ⟨hm.1.1, hm.1.2, hm.2⟩
        obtain ⟨rfl, rfl, rfl⟩ := h1
        have hz := mrKeyCount_eq_zero s pair.project.externalId
          pair.sourceBranch pair.targetBranch hkeyf
        unfold mrKeyCount at hz
        rw [List.length_eq_zero] at hz
        simp [hm, hz]
      · simp only [hm, if_false]
        exact h
    · intro pid src tgt h
      unfold hasMrKey
      simp only [List.any_cons]
      unfold hasMrKey at h
      simp [h]

theorem serverStep_created_hasMrKey (url : String) (s : ServerState)
    (pair : BranchPair) (title : String) (desc : Option String)
    (h : (executeMergeRequestStep (serverClient url) s pair title
      desc).1.status = MrStatus.created) :
    hasMrKey (executeMergeRequestStep (serverClient url) s pair title
        desc).2 pair.project.externalId pair.sourceBranch pair.targetBranch =
      true := by
  by_cases hkey : hasMrKey s pair.project.externalId pair.sourceBranch
      pair.targetBranch = true
  · exfalso
    cases hfilter : (s.mrs.filter (fun m =>
        s.pathOf m.projectExternalId == pair.project.fullPath &&
          m.sourceBranch == pair.sourceBranch &&
          m.targetBranch == pair.targetBranch)).map
        (fun m => m.toNode pair.project.fullPath) with
    | nil =>
      rw [serverStep_conflict_nil_eq url s pair title desc hkey hfilter] at h
      simp at h
    | cons node rest =>
      rw [serverStep_conflict_cons_eq url s pair title desc node rest hkey
        hfilter] at h
      simp at h
  · have hkeyf : hasMrKey s pair.project.externalId pair.sourceBranch
        pair.targetBranch = false := by simpa using hkey
    rw [serverStep_created_eq url s pair title desc hkeyf]
    unfold hasMrKey
    simp [List.any_cons, mrMatchesKey]

theorem serverStep_updated_status (url : String) (s : ServerState)
    (pair : BranchPair) (title : String) (desc : Option String)
    (hkey : hasMrKey s pair.project.externalId pair.sourceBranch
      pair.targetBranch = true)
    (hpath : s.pathOf pair.project.externalId = pair.project.fullPath) :
    (executeMergeRequestStep (serverClient url) s pair title
      desc).1.status = MrStatus.updated := by
  obtain ⟨m, hm, hmk⟩ := List.any_eq_true.mp hkey
  have hpred : (s.pathOf m.projectExternalId == pair.project.fullPath &&
      m.sourceBranch == pair.sourceBranch &&
      m.targetBranch == pair.targetBranch) = true := by
    simp only [mrMatchesKey, Bool.and_eq_true, beq_iff_eq] at hmk
    obtain ⟨⟨h1, h2⟩, h3⟩ := hmk
    simp [h1, h2, h3, hpath]
  have hmem : m ∈ s.mrs.filter (fun m =>
      s.pathOf m.projectExternalId == pair.project.fullPath &&
        m.sourceBranch == pair.sourceBranch &&
        m.targetBranch == pair.targetBranch) :=
    List.mem_filter.mpr ⟨hm, hpred⟩
  cases hfilter : (s.mrs.filter (fun m =>
      s.pathOf m.projectExternalId == pair.project.fullPath &&
        m.sourceBranch == pair.sourceBranch &&
        m.targetBranch == pair.targetBranch)).map
      (fun m => m.toNode pair.project.fullPath) with
  | nil =>
    exfalso
    rw [List.map_eq_nil_iff] at hfilter
    rw [hfilter] at hmem
    cases hmem
  | cons node rest =>
    rw [serverStep_conflict_cons_eq url s pair title desc node rest hkey
      hfilter]

theorem serverExec_invariants (url : String) (title : String)
    (desc : Option String) (pairs : List BranchPair) :
    ∀ s : ServerState,
      ((executeMergeRequests (serverClient url) s pairs title
          desc).2).pathOf = s.pathOf ∧
      (∀ pid src tgt, mrKeyCount s pid src tgt ≤ 1 →
        mrKeyCount (executeMergeRequests (serverClient url) s pairs title
          desc).2 pid src tgt ≤ 1) ∧
      (∀ pid src tgt, hasMrKey s pid src tgt = true →
        hasMrKey (executeMergeRequests (serverClient url) s pairs title
          desc).2 pid src tgt = true) := by
  induction pairs with
  | nil =>
    intro s
    exact ⟨rfl, fun _ _ _ h => h, fun _ _ _ h => h⟩
  | cons pair rest ih =>
    intro s
    rw [executeMergeRequests_cons]
    obtain ⟨hp1, hc1, hk1⟩ := serverStep_invariants url s pair title desc
    obtain ⟨hp2, hc2, hk2⟩ :=
      ih (executeMergeRequestStep (serverClient url) s pair title desc).2
    exact ⟨by rw [hp2, hp1],
      fun pid src tgt h => hc2 pid src tgt (hc1 pid src tgt h),
      fun pid src tgt h => hk2 pid src tgt (hk1 pid src tgt h)⟩

theorem serverExec_created_hasMrKey (url : String) (title : String)
    (desc : Option String) (pairs : List BranchPair) :
    ∀ (s : ServerState) (i : Nat) (r : MergeRequestResult),
      ((executeMergeRequests (serverClient url) s pairs title
          desc).1)[i]? = some r →
      r.status = MrStatus.created →
      hasMrKey ((executeMergeRequests (serverClient url) s pairs title
          desc).2) r.project.externalId r.sourceBranch r.targetBranch =
        true := by
  induction pairs with
  | nil =>
    intro s i r hr hst
    rw [executeMergeRequests_nil] at hr
    simp at hr
  | cons pair rest ih =>
    intro s i r hr hst
    rw [executeMergeRequests_cons] at hr ⊢
    cases i with
    | zero =>
      simp only [List.getElem?_cons_zero, Option.some.injEq] at hr
      subst hr
      obtain ⟨hp, hs2, ht2⟩ :=
        executeMergeRequestStep_fields (serverClient url) s pair title desc
      rw [hp, hs2, ht2]
      exact (serverExec_invariants url title desc rest
        (executeMergeRequestStep (serverClient url) s pair title
          desc).2).2.2 pair.project.externalId pair.sourceBranch
        pair.targetBranch
        (serverStep_created_hasMrKey url s pair title desc hst)
    | succ j =>
      simp only [List.getElem?_cons_succ] at hr
      exact ih (executeMergeRequestStep (serverClient url) s pair title
        desc).2 j r hr hst

theorem serverExec_updated_at (url : String) (title : String)
    (desc : Option String) (pairs : List BranchPair) :
    ∀ (s : ServerState) (i : Nat) (pair0 : BranchPair),
      pairs[i]? = some pair0 →
      (∀ p ∈ pairs, s.pathOf p.project.externalId = p.project.fullPath) →
      hasMrKey s pair0.project.externalId pair0.sourceBranch
        pair0.targetBranch = true →
      ∃ r, ((executeMergeRequests (serverClient url) s pairs title
          desc).1)[i]? = some r ∧ r.status = MrStatus.updated := by
  induction pairs with
  | nil =>
    intro s i pair0 hp
    simp at hp
  | cons pair rest ih =>
    intro s i pair0 hp hpaths hkey
    rw [executeMergeRequests_cons]
    cases i with
    | zero =>
      simp only [List.getElem?_cons_zero, Option.some.injEq] at hp
      subst hp
      exact ⟨(executeMergeRequestStep (serverClient url) s pair title
          desc).1, by simp,
        serverStep_updated_status url s pair title desc hkey
          (hpaths pair (List.mem_cons_self pair rest))⟩
    | succ j =>
      simp only [List.getElem?_cons_succ] at hp ⊢
      obtain ⟨hpf, _, hmono⟩ := serverStep_invariants url s pair title desc
      refine ih (executeMergeRequestStep (serverClient url) s pair title
        desc).2 j pair0 hp ?_ ?_
      · intro p hmem
        rw [hpf]
        exact hpaths p (List.mem_cons_of_mem pair hmem)
      · exact hmono pair0.project.externalId pair0.sourceBranch
          pair0.targetBranch hkey

/-- C1.  Idempotence of reconciliation against the model host (which
realises the §6 contract: create answers 409 exactly when an open MR for
the branch pair exists, and the open-MR query then returns it): when the
host's registry agrees with the pairs' project paths, any pair whose first
run produced outcome `created` produces outcome `updated` on an identical
second run — its second create is refused by the conflict signal rather
than succeeding — and a host holding at most one open MR per (project,
source, target) key before the runs still holds at most one after both,
so re-running never produces a duplicate open merge request. -/
theorem c1_idempotent_reconciliation (url : String) (s0 : ServerState)
    (pairs : List BranchPair) (title : String) (desc : Option String)
    (hpath : ∀ p ∈ pairs,
      s0.pathOf p.project.externalId = p.project.fullPath) :
    (∀ (i : Nat) (r1 : MergeRequestResult),
      ((executeMergeRequests (serverClient url) s0 pairs title
          desc).1)[i]? = some r1 →
      r1.status = MrStatus.created →
      ∃ r2, ((executeMergeRequests (serverClient url)
          (executeMergeRequests (serverClient url) s0 pairs title desc).2
          pairs title desc).1)[i]? = some r2 ∧
        r2.status = MrStatus.updated) ∧
    (∀ pid src tgt, mrKeyCount s0 pid src tgt ≤ 1 →
      mrKeyCount (executeMergeRequests (serverClient url)
        (executeMergeRequests (serverClient url) s0 pairs title desc).2
        pairs title desc).2 pid src tgt ≤ 1) := by
  constructor
  · intro i r1 hr1 hst
    have hx := hr1
    rw [List.getElem?_eq_some] at hx
    obtain ⟨hilt, _⟩ := hx
    have hlen : i < pairs.length := by
      have hl := (executeMergeRequests_align (serverClient url) s0 pairs
        title desc).1
      omega
    have hp0 : pairs[i]? = some pairs[i] := List.getElem?_eq_getElem hlen
    obtain ⟨r, hr, hfp, hfs, hft⟩ :=
      (executeMergeRequests_align (serverClient url) s0 pairs title desc).2
        i pairs[i] hp0
    have hrr : r = r1 := by
      rw [hr] at hr1
      exact Option.some.inj hr1
    subst hrr
    have hkey1 : hasMrKey
        (executeMergeRequests (serverClient url) s0 pairs title desc).2
        (pairs[i]).project.externalId (pairs[i]).sourceBranch
        (pairs[i]).targetBranch = true := by
      have hk := serverExec_created_hasMrKey url title desc pairs s0 i r
        hr hst
      rw [hfp, hfs, hft] at hk
      exact hk
    have hpaths1 : ∀ p ∈ pairs,
        ((executeMergeRequests (serverClient url) s0 pairs title
          desc).2).pathOf p.project.externalId = p.project.fullPath := by
      intro p hmem
      rw [(serverExec_invariants url title desc pairs s0).1]
      exact hpath p hmem
    exact serverExec_updated_at url title desc pairs
      (executeMergeRequests (serverClient url) s0 pairs title desc).2 i
      pairs[i] hp0 hpaths1 hkey1
  · intro pid src tgt h
    exact (serverExec_invariants url title desc pairs
      (executeMergeRequests (serverClient url) s0 pairs title desc).2).2.1
      pid src tgt
      ((serverExec_invariants url title desc pairs s0).2.1 pid src tgt h)

/-- Witness for C1: on a fresh model host, the run on the §8 pair creates
the MR, the identical re-run updates it, and at most one open MR per key
remains. -/
theorem c1_witness :
    (∃ r2, ((executeMergeRequests (serverClient "https://gitlab.com")
        (executeMergeRequests (serverClient "https://gitlab.com") serverW
          [pairW] "wave" none).2 [pairW] "wave" none).1)[0]? = some r2 ∧
      r2.status = MrStatus.updated) ∧
    mrKeyCount (executeMergeRequests (serverClient "https://gitlab.com")
        (executeMergeRequests (serverClient "https://gitlab.com") serverW
          [pairW] "wave" none).2 [pairW] "wave" none).2
      "42" "release/staging" "release/prod" ≤ 1 := by
  have h := c1_idempotent_reconciliation "https://gitlab.com" serverW
    [pairW] "wave" none (by decide)
  exact ⟨h.1 0 ⟨projP, "release/staging", "release/prod", MrStatus.created,
      some "https://host/grp/p/-/merge_requests/0", none⟩ rfl rfl,
    h.2 "42" "release/staging" "release/prod" (by decide)⟩


end Husgit
